import Mathlib

/-!
Verification of the transcript-assembly pipeline of cc-transcript.

This file gives a shallow embedding, in Lean 4, of the data model and the
operations of the cc-transcript repository (a TypeScript program that turns
a log of user/assistant turns into paginated HTML transcripts), and proves
or refutes a list of claims about it.

Conventions of the embedding:
- JavaScript strings are modelled by Lean `String`; `.length`, `.slice` and
  friends are modelled on characters (the inputs of interest are within the
  Basic Multilingual Plane, where JS UTF-16 code-unit indexing agrees with
  character indexing).
- JavaScript runtime values that flow through untyped positions are modelled
  by the `Json` inductive below; `JSON.parse` / `JSON.stringify` are modelled
  by the executable `jsonParse` / `jsonStringify` / `jsonStringifyPretty`.
- A thrown exception is modelled by `Option.none` (functions that can throw
  return `Option`); silently skipped work is a regular return value, exactly
  as in the source.
- The external collaborators excluded by the spec (the preact HTML
  serializer, the marked markdown engine) are modelled where noted by doc
  comments starting with "Modelled from the spec:".
-/

set_option maxRecDepth 4000

namespace CCTranscript

/-! ### JavaScript string primitives -/

/-- Whitespace for the purposes of JS `String.prototype.trim` and the regex
class `\s` (ASCII part; the inputs of interest contain no exotic Unicode
space characters). -/
def isJsWs (c : Char) : Bool :=
  c = ' ' || c = '\t' || c = '\n' || c = '\r' || c = '\x0b' || c = '\x0c'

/-- JS `String.prototype.trim` on a character list. -/
def jsTrimList (l : List Char) : List Char :=
  ((l.dropWhile isJsWs).reverse.dropWhile isJsWs).reverse

/-- JS `String.prototype.trim`. -/
def jsTrim (s : String) : String :=
  String.mk (jsTrimList s.toList)

/-- One pass of JS `str.replace(/\s+/g, " ")`: `lastWs` records whether the
previous character was whitespace, so each whitespace run emits exactly one
space. -/
def collapseWsGo (lastWs : Bool) : List Char → List Char
  | [] => []
  | c :: rest =>
    if isJsWs c then
      if lastWs then collapseWsGo true rest else ' ' :: collapseWsGo true rest
    else c :: collapseWsGo false rest

/-- JS `str.replace(/\s+/g, " ")`: collapse every whitespace run to one space. -/
def collapseWsList (l : List Char) : List Char :=
  collapseWsGo false l

/-- JS `str.split(sep)` for a single-character separator, on char lists:
every occurrence splits, empty pieces kept. -/
def splitOnChar (sep : Char) : List Char → List (List Char)
  | [] => [[]]
  | x :: xs =>
    match splitOnChar sep xs with
    | [] => [[]]
    | cur :: rest => if x = sep then [] :: cur :: rest else (x :: cur) :: rest

/-- JS `content.split("\n")`. -/
def jsSplitNl (s : String) : List String :=
  (splitOnChar '\n' s.toList).map String.mk

/-- JS `String.prototype.endsWith`. -/
def jsEndsWith (s suffix : String) : Bool :=
  suffix.toList.isSuffixOf s.toList

/-- JS `String.prototype.startsWith`. -/
def jsStartsWith (s p : String) : Bool :=
  p.toList.isPrefixOf s.toList

/-- JS `String.prototype.padStart(3, "0")`. -/
def padStart3 (s : String) : String :=
  if 3 ≤ s.length then s
  else String.mk (List.replicate (3 - s.length) '0') ++ s

/-- ASCII lower-casing, modelling JS `String.prototype.toLowerCase` on the
tool names that occur (all ASCII). -/
def jsToLower (s : String) : String :=
  String.mk (s.toList.map Char.toLower)

/-! ### JSON values

JavaScript runtime values reaching untyped positions (tool inputs, tool
result items, unvalidated parse results). Numbers are kept as their source
lexeme: no verified claim depends on numeric values, and this sidesteps
IEEE-754 float semantics. -/

inductive Json where
  | null
  | bool (b : Bool)
  | num (lexeme : String)
  | str (s : String)
  | arr (items : List Json)
  | obj (fields : List (String × Json))
deriving Inhabited

/-- Result of a JS property access that did not throw: either a present
value or `undefined`. -/
inductive JsVal where
  | undefined
  | val (j : Json)
deriving Inhabited

/-- JS property access `base[key]`: throws (`none`) on `null`, yields the
field of an object, and `undefined` for the string keys of interest on
arrays and primitives. -/
def jsGetProp (base : Json) (key : String) : Option JsVal :=
  match base with
  | .null => none
  | .obj fields =>
    match fields.find? (fun kv => kv.1 = key) with
    | some kv => some (.val kv.2)
    | none => some .undefined
  | _ => some .undefined

/-- JS truthiness of a value (numbers by lexeme: all-zero mantissa is falsy). -/
def jsonTruthy : Json → Bool
  | .null => false
  | .bool b => b
  | .str s => s ≠ ""
  | .num l => (l.toList.any fun c => '1' ≤ c && c ≤ '9')
  | .arr _ => true
  | .obj _ => true

def jsTruthy : JsVal → Bool
  | .undefined => false
  | .val j => jsonTruthy j

/-- JS `a || b` on access results. -/
def jsOr (a b : JsVal) : JsVal :=
  if jsTruthy a then a else b

/-! ### JSON.stringify -/

def hexDigit (n : Nat) : Char :=
  if n < 10 then Char.ofNat ('0'.toNat + n) else Char.ofNat ('a'.toNat + n - 10)

def hex4 (n : Nat) : String :=
  String.mk [hexDigit (n / 4096 % 16), hexDigit (n / 256 % 16),
             hexDigit (n / 16 % 16), hexDigit (n % 16)]

def escapeJsonChar (c : Char) : String :=
  if c = '"' then "\\\""
  else if c = '\\' then "\\\\"
  else if c = '\n' then "\\n"
  else if c = '\r' then "\\r"
  else if c = '\t' then "\\t"
  else if c = '\x08' then "\\b"
  else if c = '\x0c' then "\\f"
  else if c.toNat < 32 then "\\u" ++ hex4 c.toNat
  else String.singleton c

/-- JSON string literal quoting as produced by `JSON.stringify`. -/
def jsonQuote (s : String) : String :=
  "\"" ++ String.join (s.toList.map escapeJsonChar) ++ "\""

mutual

/-- Compact `JSON.stringify(value)`. -/
def jsonStringify : Json → String
  | .null => "null"
  | .bool b => if b then "true" else "false"
  | .num l => l
  | .str s => jsonQuote s
  | .arr items => "[" ++ jsonStringifyArr items ++ "]"
  | .obj fields => "\x7b" ++ jsonStringifyObj fields ++ "\x7d"

def jsonStringifyArr : List Json → String
  | [] => ""
  | [j] => jsonStringify j
  | j :: rest => jsonStringify j ++ "," ++ jsonStringifyArr rest

def jsonStringifyObj : List (String × Json) → String
  | [] => ""
  | [kv] => jsonQuote kv.1 ++ ":" ++ jsonStringify kv.2
  | kv :: rest => jsonQuote kv.1 ++ ":" ++ jsonStringify kv.2 ++ "," ++ jsonStringifyObj rest

end

def indentSpaces (n : Nat) : String :=
  String.mk (List.replicate n ' ')

mutual

/-- Pretty `JSON.stringify(value, null, 2)` with current indentation `ind`. -/
def jsonPretty (ind : Nat) : Json → String
  | .arr [] => "[]"
  | .arr items =>
    "[\n" ++ jsonPrettyArr (ind + 2) items ++ "\n" ++ indentSpaces ind ++ "]"
  | .obj [] => "\x7b\x7d"
  | .obj fields =>
    "\x7b\n" ++ jsonPrettyObj (ind + 2) fields ++ "\n" ++ indentSpaces ind ++ "\x7d"
  | j => jsonStringify j

def jsonPrettyArr (ind : Nat) : List Json → String
  | [] => ""
  | [j] => indentSpaces ind ++ jsonPretty ind j
  | j :: rest => indentSpaces ind ++ jsonPretty ind j ++ ",\n" ++ jsonPrettyArr ind rest

def jsonPrettyObj (ind : Nat) : List (String × Json) → String
  | [] => ""
  | [kv] => indentSpaces ind ++ jsonQuote kv.1 ++ ": " ++ jsonPretty ind kv.2
  | kv :: rest =>
    indentSpaces ind ++ jsonQuote kv.1 ++ ": " ++ jsonPretty ind kv.2 ++ ",\n" ++
      jsonPrettyObj ind rest

end

/-! ### JSON.parse

A recursive-descent parser for the JSON grammar accepted by `JSON.parse`,
with a fuel parameter bounding recursion depth (`jsonParse` supplies ample
fuel). `none` models a thrown `SyntaxError`. -/

def jsonWsChar (c : Char) : Bool :=
  c = ' ' || c = '\t' || c = '\n' || c = '\r'

def skipJsonWs (l : List Char) : List Char :=
  l.dropWhile jsonWsChar

def isHexChar (c : Char) : Bool :=
  ('0' ≤ c && c ≤ '9') || ('a' ≤ c && c ≤ 'f') || ('A' ≤ c && c ≤ 'F')

def hexCharVal (c : Char) : Nat :=
  if '0' ≤ c ∧ c ≤ '9' then c.toNat - '0'.toNat
  else if 'a' ≤ c ∧ c ≤ 'f' then c.toNat - 'a'.toNat + 10
  else c.toNat - 'A'.toNat + 10

/-- Parse the body of a JSON string literal (after the opening quote). -/
def parseJsonStr : List Char → Option (List Char × List Char)
  | [] => none
  | '"' :: rest => some ([], rest)
  | '\\' :: esc =>
    match esc with
    | '"' :: rest => (parseJsonStr rest).map fun r => ('"' :: r.1, r.2)
    | '\\' :: rest => (parseJsonStr rest).map fun r => ('\\' :: r.1, r.2)
    | '/' :: rest => (parseJsonStr rest).map fun r => ('/' :: r.1, r.2)
    | 'b' :: rest => (parseJsonStr rest).map fun r => ('\x08' :: r.1, r.2)
    | 'f' :: rest => (parseJsonStr rest).map fun r => ('\x0c' :: r.1, r.2)
    | 'n' :: rest => (parseJsonStr rest).map fun r => ('\n' :: r.1, r.2)
    | 'r' :: rest => (parseJsonStr rest).map fun r => ('\r' :: r.1, r.2)
    | 't' :: rest => (parseJsonStr rest).map fun r => ('\t' :: r.1, r.2)
    | 'u' :: a :: b :: c :: d :: rest =>
      if isHexChar a && isHexChar b && isHexChar c && isHexChar d then
        let n := ((hexCharVal a * 16 + hexCharVal b) * 16 + hexCharVal c) * 16 + hexCharVal d
        (parseJsonStr rest).map fun r => (Char.ofNat n :: r.1, r.2)
      else none
    | _ => none
  | c :: rest =>
    if c.toNat < 32 then none
    else (parseJsonStr rest).map fun r => (c :: r.1, r.2)

def isDigitChar (c : Char) : Bool :=
  '0' ≤ c && c ≤ '9'

/-- Parse a JSON number, returning its lexeme. -/
def parseJsonNum (l : List Char) : Option (List Char × List Char) :=
  let (sign, l1) := match l with
    | '-' :: rest => ([' '].map (fun _ => '-'), rest)
    | _ => ([], l)
  let intPart := l1.takeWhile isDigitChar
  let l2 := l1.dropWhile isDigitChar
  if intPart = [] then none
  else if intPart.length > 1 ∧ intPart.headD '0' = '0' then none
  else
    let (fracPart, l3) := match l2 with
      | '.' :: rest =>
        let ds := rest.takeWhile isDigitChar
        if ds = [] then ([], l2) else ('.' :: ds, rest.dropWhile isDigitChar)
      | _ => ([], l2)
    if l2 ≠ [] ∧ l2.headD ' ' = '.' ∧ fracPart = [] then none
    else
      let (expPart, l4) := match l3 with
        | e :: rest =>
          if e = 'e' ∨ e = 'E' then
            let (es, rest2) := match rest with
              | s :: r2 => if s = '+' ∨ s = '-' then ([s], r2) else ([], rest)
              | [] => ([], rest)
            let ds := rest2.takeWhile isDigitChar
            if ds = [] then ([], l3)
            else (e :: (es ++ ds), rest2.dropWhile isDigitChar)
          else ([], l3)
        | [] => ([], l3)
      if l3 ≠ [] ∧ (l3.headD ' ' = 'e' ∨ l3.headD ' ' = 'E') ∧ expPart = [] then none
      else some (sign ++ intPart ++ fracPart ++ expPart, l4)

mutual

def parseJsonValue (fuel : Nat) (l : List Char) : Option (Json × List Char) :=
  match fuel with
  | 0 => none
  | fuel + 1 =>
    match skipJsonWs l with
    | 'n' :: 'u' :: 'l' :: 'l' :: rest => some (.null, rest)
    | 't' :: 'r' :: 'u' :: 'e' :: rest => some (.bool true, rest)
    | 'f' :: 'a' :: 'l' :: 's' :: 'e' :: rest => some (.bool false, rest)
    | '"' :: rest =>
      (parseJsonStr rest).map fun r => (.str (String.mk r.1), r.2)
    | '[' :: rest =>
      (match skipJsonWs rest with
       | ']' :: rest2 => some (.arr [], rest2)
       | _ => (parseJsonItems fuel rest).map fun r => (.arr r.1, r.2))
    | '\x7b' :: rest =>
      (match skipJsonWs rest with
       | '\x7d' :: rest2 => some (.obj [], rest2)
       | _ => (parseJsonFields fuel rest).map fun r => (.obj r.1, r.2))
    | rest =>
      (parseJsonNum rest).map fun r => (.num (String.mk r.1), r.2)

def parseJsonItems (fuel : Nat) (l : List Char) : Option (List Json × List Char) :=
  match fuel with
  | 0 => none
  | fuel + 1 => do
    let (v, rest) ← parseJsonValue fuel l
    match skipJsonWs rest with
    | ',' :: rest2 =>
      (parseJsonItems fuel rest2).map fun r => (v :: r.1, r.2)
    | ']' :: rest2 => some ([v], rest2)
    | _ => none

def parseJsonFields (fuel : Nat) (l : List Char) : Option (List (String × Json) × List Char) :=
  match fuel with
  | 0 => none
  | fuel + 1 => do
    match skipJsonWs l with
    | '"' :: rest => do
      let (key, rest2) ← parseJsonStr rest
      match skipJsonWs rest2 with
      | ':' :: rest3 => do
        let (v, rest4) ← parseJsonValue fuel rest3
        match skipJsonWs rest4 with
        | ',' :: rest5 =>
          (parseJsonFields fuel rest5).map fun r => ((String.mk key, v) :: r.1, r.2)
        | '\x7d' :: rest5 => some ([(String.mk key, v)], rest5)
        | _ => none
      | _ => none
    | _ => none

end

/-- JS `JSON.parse` on a whole string; `none` models a thrown `SyntaxError`. -/
def jsonParse (s : String) : Option Json := do
  let l := s.toList
  let (v, rest) ← parseJsonValue (4 * l.length + 8) l
  if skipJsonWs rest = [] then some v else none

/-! ### Data model (src/schemas.ts)

The Zod schemas of `src/schemas.ts` as Lean types. A value of one of these
types is by construction a value accepted by the corresponding schema
(`z.unknown()` positions are `Json`). -/

inductive LogType where
  | user
  | assistant
  | summary
  | tool_use
  | tool_result
deriving DecidableEq, Inhabited

/-- ImageSourceSchema: optional literal tag, media type, base64 payload. -/
structure ImageSource where
  source_type : Option String
  media_type : String
  data : String
deriving DecidableEq, Inhabited

/-- ToolResultBlockSchema content: `z.union([z.string(), z.array(z.unknown())])`. -/
inductive ToolResultContent where
  | str (s : String)
  | items (l : List Json)
deriving Inhabited

/-- ContentBlockSchema: discriminated union on `type`. -/
inductive ContentBlock where
  | text (text : String)
  | thinking (thinking : String)
  | image (source : ImageSource)
  | tool_use (id : String) (name : String) (input : List (String × Json))
  | tool_result (tool_use_id : Option String) (content : ToolResultContent)
      (is_error : Option Bool)
deriving Inhabited

/-- MessageContentSchema: `z.union([z.string(), z.array(ContentBlockSchema)])`. -/
inductive MessageContent where
  | str (s : String)
  | blocks (l : List ContentBlock)
deriving Inhabited

/-- MessageSchema. -/
structure Message where
  role : Option String
  content : MessageContent
deriving Inhabited

/-- LoglineSchema. -/
structure Logline where
  type : LogType
  timestamp : Option String := none
  message : Option Message := none
  content : Option MessageContent := none
  isCompactSummary : Option Bool := none
  sessionId : Option String := none
  cwd : Option String := none
  gitBranch : Option String := none
  uuid : Option String := none
  summary : Option String := none
  leafUuid : Option String := none
  isMeta : Option Bool := none
  toolName : Option String := none
  toolUseId : Option String := none
  toolInput : Option Json := none
  isError : Option Bool := none
deriving Inhabited

/-- The JSON object a `ContentBlock` is at runtime (the value that passed
schema validation). Used where the source hands a typed block to code that
inspects it dynamically. -/
def ContentBlock.toJson : ContentBlock → Json
  | .text t => .obj [("type", .str "text"), ("text", .str t)]
  | .thinking t => .obj [("type", .str "thinking"), ("thinking", .str t)]
  | .image src =>
    .obj [("type", .str "image"),
          ("source", .obj ((match src.source_type with
              | some t => [("type", Json.str t)]
              | none => []) ++
            [("media_type", Json.str src.media_type), ("data", Json.str src.data)]))]
  | .tool_use id name input =>
    .obj [("type", .str "tool_use"), ("id", .str id), ("name", .str name),
          ("input", .obj input)]
  | .tool_result tid content isErr =>
    .obj ([("type", Json.str "tool_result")] ++
      (match tid with | some t => [("tool_use_id", Json.str t)] | none => []) ++
      [("content", match content with
        | .str s => Json.str s
        | .items l => Json.arr l)] ++
      (match isErr with | some b => [("is_error", Json.bool b)] | none => []))

/-! ### src/render/message.tsx -/

/-- isToolResultMessage (src/render/message.tsx): the message content is a
non-empty array in which every element is tagged `tool_result`. Every block
here passed schema validation, so the source's `typeof block === "object"`
and `"type" in block` guards always hold. -/
def isToolResultMessage (message : Message) : Bool :=
  match message.content with
  | .str _ => false
  | .blocks content =>
    if content.length = 0 then false
    else content.all fun block =>
      match block with
      | .tool_result _ _ _ => true
      | _ => false

/-- makeMsgId (src/render/message.tsx): `msg-` + timestamp with `:` then `.`
each globally replaced by `-`. -/
def makeMsgId (timestamp : String) : String :=
  "msg-" ++ String.mk
    ((timestamp.toList.map fun c => if c = ':' then '-' else c).map
      fun c => if c = '.' then '-' else c)

/-! ### Conversation grouping (src/render/transcript.tsx) -/

inductive MsgRole where
  | user
  | assistant
deriving DecidableEq, Inhabited

/-- One entry of Conversation.messages. The source stores
`messageJson = JSON.stringify(message)`; consumers immediately
`JSON.parse` it back, so the embedding stores the message value itself
(stringify/parse round-trip on schema values). -/
structure ConversationMessage where
  type : MsgRole
  messageJson : Message
  timestamp : String
deriving Inhabited

structure Conversation where
  userText : String
  timestamp : String
  messages : List ConversationMessage
  isContinuation : Bool
deriving Inhabited

/-- getUserTextPreview (src/render/transcript.tsx). -/
def getUserTextPreview (message : Message) : String :=
  let preview :=
    match message.content with
    | .str s => s
    | .blocks content =>
      let fromText :=
        match content.find? (fun b : ContentBlock =>
            match b with | .text _ => true | _ => false) with
        | some (.text t) => t
        | _ => ""
      if fromText = "" ∧ content.length > 0 then
        "[" ++ (match content.headD default with
          | .text _ => "text"
          | .thinking _ => "thinking"
          | .image _ => "image"
          | .tool_use _ _ _ => "tool_use"
          | .tool_result _ _ _ => "tool_result") ++ "]"
      else fromText
  let normalized := jsTrim (String.mk (collapseWsList preview.toList))
  if normalized.length > 100 then String.mk (normalized.toList.take 100) ++ "..."
  else normalized

/-- getMessageFromLogline (src/render/transcript.tsx): prefer the nested
legacy `message` field, else wrap the flat `content` field. -/
def getMessageFromLogline (logline : Logline) : Option Message :=
  match logline.message with
  | some m => some m
  | none =>
    match logline.content with
    | some c => some { role := none, content := c }
    | none => none

/-- The mutable `conversations` array plus the `current` pointer of
groupLoglinesToConversations. `current`, when set, aliases the last element
pushed into the array, so the state keeps it apart: the conversation list at
any moment is `done ++ current.toList`. -/
structure GroupState where
  done : List Conversation
  current : Option Conversation

/-- One iteration of the groupLoglinesToConversations loop
(src/render/transcript.tsx, lines 76-129). -/
def groupStep (st : GroupState) (logline : Logline) : GroupState :=
  if logline.type ≠ .user ∧ logline.type ≠ .assistant then st
  else
    match getMessageFromLogline logline with
    | none => st
    | some message =>
      let timestamp := logline.timestamp.getD ""
      if logline.type = .user then
        let startsConversation := !(isToolResultMessage message)
        let st1 :=
          if startsConversation then
            { done := st.done ++ st.current.toList
              current := some
                { userText := getUserTextPreview message
                  timestamp := timestamp
                  messages := []
                  isContinuation := logline.isCompactSummary.getD false } }
          else st
        match st1.current with
        | some c =>
          { st1 with current := some ({ c with messages := c.messages ++
              [({ type := .user, messageJson := message,
                  timestamp := timestamp } : ConversationMessage)] }) }
        | none => st1
      else
        match st.current with
        | none => st
        | some c =>
          { st with current := some ({ c with messages := c.messages ++
              [({ type := .assistant, messageJson := message,
                  timestamp := timestamp } : ConversationMessage)] }) }

/-- groupLoglinesToConversations (src/render/transcript.tsx). -/
def groupLoglinesToConversations (loglines : List Logline) : List Conversation :=
  let st := loglines.foldl groupStep { done := [], current := none }
  st.done ++ st.current.toList

/-! ### Pagination (src/render/pagination.tsx) -/

/-- PROMPTS_PER_PAGE (src/types.ts). -/
def PROMPTS_PER_PAGE : Nat := 5

/-- formatPageNum (src/render/pagination.tsx). -/
def formatPageNum (pageNum : Nat) : String :=
  padStart3 (toString pageNum)

/-- getPageFilename (src/render/pagination.tsx). -/
def getPageFilename (pageNum : Nat) : String :=
  "page-" ++ formatPageNum pageNum ++ ".html"

/-- One iteration of the paginateConversations loop: push the conversation
onto `currentPage`, flushing into `pages` when it reaches `promptsPerPage`. -/
def pagStep (promptsPerPage : Nat)
    (st : List (List Conversation) × List Conversation) (conv : Conversation) :
    List (List Conversation) × List Conversation :=
  let currentPage := st.2 ++ [conv]
  if promptsPerPage ≤ currentPage.length then (st.1 ++ [currentPage], [])
  else (st.1, currentPage)

/-- paginateConversations (src/render/pagination.tsx): the loop pushes each
conversation onto `currentPage`, flushing it into `pages` whenever it
reaches `promptsPerPage`; a non-empty remainder becomes the final page. -/
def paginateConversations (conversations : List Conversation)
    (promptsPerPage : Nat := PROMPTS_PER_PAGE) : List (List Conversation) :=
  let result := conversations.foldl (pagStep promptsPerPage) ([], [])
  if result.2.isEmpty then result.1 else result.1 ++ [result.2]

/-- calculateTotalPages (src/render/pagination.tsx): 0 for no conversations,
else `Math.ceil(totalConversations / promptsPerPage)`. -/
def calculateTotalPages (totalConversations : Nat)
    (promptsPerPage : Nat := PROMPTS_PER_PAGE) : Nat :=
  if totalConversations = 0 then 0
  else (totalConversations + promptsPerPage - 1) / promptsPerPage

/-! ### Format detection (src/parse.ts) -/

inductive SessionFormat where
  | jsonl
  | json
deriving DecidableEq

/-- isJsonl (src/parse.ts): probe the literal first line of the content.
`"loglines" in parsed` throws a TypeError on a primitive parse result, which
the surrounding try/catch turns into `false`; on an array it is `false`
(so the probe returns `true`). -/
def isJsonl (content : String) : Bool :=
  let firstLine := jsTrim ((jsSplitNl content).headD "")
  if firstLine = "" then false
  else
    match jsonParse firstLine with
    | none => false
    | some parsed =>
      match parsed with
      | .obj fields => !(fields.any fun kv => kv.1 = "loglines")
      | .arr _ => true
      | _ => false

/-- The format decision of parseSessionFile (src/parse.ts, line 19). -/
def chooseFormat (filePath : String) (content : String) : SessionFormat :=
  if jsEndsWith filePath ".jsonl" || isJsonl content then .jsonl else .json

/-! ### Commit pattern of the analyzer

Embedding of the JS regex search
`str.match(/\[(?<branch>[^\]]+)\s+(?<hash>[0-9a-f]{7,})\]\s+(?<message>.*)/)`
used in analyzeConversation (src/render/index-page.tsx, line 232) and in
findConversationCommits (src/render/transcript.tsx, line 257): leftmost
match, greedy quantifiers with backtracking. Since neither `[^\]]+` nor
`\s+` nor the hex class can match `]`, the closing `\]` is pinned to the
first `]` after the opening `[`; the greedy branch group means the hash is
the all-hex run after the last whitespace run of that segment. -/

def isLowerHex (c : Char) : Bool :=
  ('0' ≤ c && c ≤ '9') || ('a' ≤ c && c ≤ 'f')

structure CommitMatch where
  branch : String
  hash : String
  message : String
deriving DecidableEq, Inhabited

/-- Split the bracket segment as `(?<branch>[^\]]+)\s+(?<hash>[0-9a-f]{7,})`,
trying the longest branch first (greedy `[^\]]+` with backtracking); `k + 1`
is the branch length currently tried. -/
def analyzerSegSplit (seg : List Char) : Nat → Option (List Char × List Char)
  | 0 => none
  | k + 1 =>
    let b := seg.take (k + 1)
    let r := seg.drop (k + 1)
    let w := r.takeWhile isJsWs
    let h := r.dropWhile isJsWs
    if w ≠ [] ∧ h ≠ [] ∧ h.all isLowerHex ∧ 7 ≤ h.length then some (b, h)
    else analyzerSegSplit seg k

/-- Try to match the analyzer commit pattern with the `[` at the head
already consumed. -/
def analyzerMatchAt (afterBracket : List Char) : Option CommitMatch :=
  let seg := afterBracket.takeWhile (fun c => c ≠ ']')
  match afterBracket.dropWhile (fun c => c ≠ ']') with
  | _ :: afterClose =>
    match analyzerSegSplit seg (seg.length - 1) with
    | some (b, h) =>
      let w2 := afterClose.takeWhile isJsWs
      if w2 = [] then none
      else
        let msg := (afterClose.dropWhile isJsWs).takeWhile
          (fun c => c ≠ '\n' ∧ c ≠ '\r')
        some ⟨String.mk b, String.mk h, String.mk msg⟩
    | none => none
  | [] => none

/-- Leftmost search for the analyzer commit pattern (JS `String.match` with
a non-global regex: the first match only). -/
def analyzerCommitScan : List Char → Option CommitMatch
  | [] => none
  | c :: rest =>
    match (if c = '[' then analyzerMatchAt rest else none) with
    | some m => some m
    | none => analyzerCommitScan rest

/-! ### Commit pattern of the tool-result renderer

Embedding of the JS regex (src/render/content-blocks.tsx, line 131) that
matches `[` , a ref made of word, hyphen or slash characters, a space, a
captured run `[a-f0-9]` of length at least 7, `]`, a space, and a lazy
captured `(.+?)` terminated by `(?:\n|$)`, with the `g` flag.
The ref is a run of
word/`-`/`/` characters, separators are single literal spaces, the lazy
`(.+?)(?:\n|$)` takes the non-empty remainder of the line (`.` matches
neither `\n` nor `\r`; a line ended by a bare `\r` cannot complete the
match). The `g` flag makes the renderer consume every match. -/

def isWordOrRefChar (c : Char) : Bool :=
  ('a' ≤ c && c ≤ 'z') || ('A' ≤ c && c ≤ 'Z') || ('0' ≤ c && c ≤ '9') ||
    c = '_' || c = '-' || c = '/'

structure RendererMatch where
  length : Nat
  hash : String
  message : String
deriving DecidableEq, Inhabited

/-- Try to match the renderer commit pattern at the head of the list;
`length` is the length of `match[0]` (including the trailing newline when
the alternative `\n` matched). -/
def rendererMatchAt : List Char → Option RendererMatch
  | '[' :: rest =>
    let w := rest.takeWhile isWordOrRefChar
    if w = [] then none
    else
      match rest.dropWhile isWordOrRefChar with
      | ' ' :: r2 =>
        let h := r2.takeWhile isLowerHex
        if h.length < 7 then none
        else
          match r2.dropWhile isLowerHex with
          | ']' :: ' ' :: r4 =>
            let m := r4.takeWhile (fun c => c ≠ '\n' ∧ c ≠ '\r')
            if m = [] then none
            else
              match r4.dropWhile (fun c => c ≠ '\n' ∧ c ≠ '\r') with
              | [] =>
                some ⟨1 + w.length + 1 + h.length + 2 + m.length,
                  String.mk h, String.mk m⟩
              | '\n' :: _ =>
                some ⟨1 + w.length + 1 + h.length + 2 + m.length + 1,
                  String.mk h, String.mk m⟩
              | _ => none
          | _ => none
      | _ => none
  | _ => none

/-- Whether the renderer pattern matches anywhere
(JS `content.match(commitRegex)` used as a truthy test). -/
def rendererHasMatch : List Char → Bool
  | [] => false
  | c :: rest => (rendererMatchAt (c :: rest)).isSome || rendererHasMatch rest

/-- A piece of rendered tool-result content: literal text between matches,
or a commit card for one match. -/
inductive ToolResultPart where
  | text (s : String)
  | commit (hash : String) (message : String)
deriving DecidableEq

/-- The `commitRegex.exec` loop of the ToolResult component: alternate
verbatim text and commit cards, resuming after each full match. `acc` holds
the pending text chars in reverse. -/
def rendererScanGo (acc : List Char) : List Char → List ToolResultPart
  | [] => if acc = [] then [] else [.text (String.mk acc.reverse)]
  | c :: rest =>
    match rendererMatchAt (c :: rest) with
    | some m =>
      (if acc = [] then [] else [ToolResultPart.text (String.mk acc.reverse)]) ++
        ToolResultPart.commit m.hash m.message ::
          rendererScanGo [] (rest.drop (m.length - 1))
    | none => rendererScanGo (c :: acc) rest
termination_by l => l.length
decreasing_by
  · simp only [List.length_drop, List.length_cons]
    omega
  · simp

/-! ### Conversation analysis (src/render/index-page.tsx) -/

structure LongText where
  type : String
  preview : String
  full : String
  timestamp : String
deriving DecidableEq, Inhabited

structure CommitRecord where
  hash : String
  message : String
  timestamp : String
deriving DecidableEq, Inhabited

/-- ConversationAnalysis; `toolCounts` models the insertion-ordered JS
`Map<string, number>` as an association list. -/
structure ConversationAnalysis where
  toolCounts : List (String × Nat)
  longTexts : List LongText
  commits : List CommitRecord
deriving DecidableEq

/-- JS `map.set(name, (map.get(name) || 0) + 1)` on an insertion-ordered map. -/
def mapIncr (m : List (String × Nat)) (key : String) : List (String × Nat) :=
  if m.any (fun kv => kv.1 = key) then
    m.map fun kv => if kv.1 = key then (kv.1, kv.2 + 1) else kv
  else m ++ [(key, 1)]

/-- The content coercion both commit scanners apply to a tool-result block:
string content is used as is, an item array is flattened to its JSON text
(`typeof content === "string" ? content : JSON.stringify(content)`). -/
def toolResultContentStr : ToolResultContent → String
  | .str s => s
  | .items l => jsonStringify (.arr l)

/-- Body of the inner block loop of analyzeConversation
(src/render/index-page.tsx, lines 178-245). -/
def analyzeBlock (timestamp : String) (a : ConversationAnalysis)
    (block : ContentBlock) : ConversationAnalysis :=
  match block with
  | .tool_use _ name input =>
    let a1 := { a with toolCounts := mapIncr a.toolCounts name }
    let lookupStr : String → Option String := fun key =>
      match input.find? (fun kv => kv.1 = key) with
      | some (_, Json.str s) => some s
      | _ => none
    let textToCheck :=
      (lookupStr "content").getD
        ((lookupStr "newString").getD ((lookupStr "replacement").getD ""))
    if textToCheck.length > 500 then
      { a1 with longTexts := a1.longTexts ++
          [{ type := name, preview := String.mk (textToCheck.toList.take 200) ++ "..."
             full := textToCheck, timestamp := timestamp }] }
    else a1
  | .thinking text =>
    if text.length > 500 then
      { a with longTexts := a.longTexts ++
          [{ type := "thinking", preview := String.mk (text.toList.take 200) ++ "..."
             full := text, timestamp := timestamp }] }
    else a
  | .tool_result _ rc _ =>
    let contentStr := toolResultContentStr rc
    match analyzerCommitScan contentStr.toList with
    | some m =>
      if m.hash ≠ "" ∧ m.message ≠ "" then
        { a with commits := a.commits ++
            [{ hash := m.hash, message := jsTrim m.message, timestamp := timestamp }] }
      else a
    | none => a
  | _ => a

/-- Body of the logline loop of analyzeConversation: entries without a
nested `message`, or whose message content is the empty string, are skipped
(`if (!logline.message || !logline.message.content) continue`); a string
content is wrapped as a single text block. -/
def analyzeLogline (a : ConversationAnalysis) (logline : Logline) :
    ConversationAnalysis :=
  match logline.message with
  | none => a
  | some message =>
    let skip : Bool := match message.content with
      | .str s => s = ""
      | .blocks _ => false
    if skip then a
    else
      let timestamp := logline.timestamp.getD ""
      let blocks := match message.content with
        | .blocks l => l
        | .str s => [ContentBlock.text s]
      blocks.foldl (analyzeBlock timestamp) a

/-- analyzeConversation (src/render/index-page.tsx, lines 166-249). -/
def analyzeConversation (loglines : List Logline) : ConversationAnalysis :=
  loglines.foldl analyzeLogline { toolCounts := [], longTexts := [], commits := [] }

/-! ### Per-conversation statistics (src/render/transcript.tsx) -/

/-- normalizeToolName (src/render/transcript.tsx, lines 195-208): lower-case,
strip a leading `mcp_`, then collapse aliases through the fixed table. -/
def normalizeToolName (name : String) : String :=
  let lower := jsToLower name
  let normalized :=
    if jsStartsWith lower "mcp_" then String.mk (lower.toList.drop 4) else lower
  match normalized with
  | "todowrite" => "todo"
  | "todoread" => "todo"
  | "bash" => "bash"
  | "write" => "write"
  | "edit" => "edit"
  | "read" => "read"
  | "glob" => "glob"
  | "grep" => "grep"
  | _ => normalized

/-- The `toolCounts` map built by formatConversationToolStats
(src/render/transcript.tsx, lines 210-230): only assistant messages with
array content count, keys are normalized names, and a block with an empty
name is skipped (`block.name` is tested for truthiness). The
`JSON.parse(msg.messageJson)` always succeeds because `messageJson` was
produced by `JSON.stringify`. -/
def conversationToolCounts (messages : List ConversationMessage) :
    List (String × Nat) :=
  messages.foldl
    (fun m msg =>
      if msg.type ≠ .assistant then m
      else
        match msg.messageJson.content with
        | .str _ => m
        | .blocks content =>
          content.foldl
            (fun m block =>
              match block with
              | .tool_use _ name _ =>
                if name ≠ "" then mapIncr m (normalizeToolName name) else m
              | _ => m)
            m)
    []

/-- formatConversationToolStats (src/render/transcript.tsx): sort the counts
descending (JS `sort` is stable) and format `count name` joined by a
separator. -/
def formatConversationToolStats (messages : List ConversationMessage) : String :=
  let toolCounts := conversationToolCounts messages
  if toolCounts.length = 0 then ""
  else
    let sorted := toolCounts.mergeSort (fun a b => b.2 ≤ a.2)
    String.intercalate " · " (sorted.map fun kv => toString kv.2 ++ " " ++ kv.1)

/-- findConversationCommits (src/render/transcript.tsx, lines 238-275):
first commit match per tool-result block, over all messages of the
conversation. -/
def findConversationCommits (messages : List ConversationMessage) :
    List CommitRecord :=
  messages.foldl
    (fun commits msg =>
      match msg.messageJson.content with
      | .str _ => commits
      | .blocks content =>
        content.foldl
          (fun commits block =>
            match block with
            | .tool_result _ rc _ =>
              let resultContent := toolResultContentStr rc
              match analyzerCommitScan resultContent.toList with
              | some m =>
                if m.hash ≠ "" ∧ m.message ≠ "" then
                  commits ++ [{ hash := m.hash, message := jsTrim m.message,
                                timestamp := msg.timestamp }]
                else commits
              | none => commits
            | _ => commits)
          commits)
    []

/-! ### Index page summary and entry links (src/render/transcript.tsx,
src/render/index-page.tsx) -/

structure IndexSummaryData where
  promptCount : Nat
  messageCount : Nat
  toolCallCount : Nat
  commitCount : Nat
  pageCount : Nat
deriving DecidableEq

/-- The counts renderIndexPage (src/render/transcript.tsx, lines 283-305)
feeds to IndexSummary. -/
def indexSummaryData (conversations : List Conversation)
    (loglines : List Logline) (totalPages : Nat) : IndexSummaryData :=
  let analysis := analyzeConversation loglines
  { promptCount := conversations.length
    messageCount :=
      (loglines.filter fun l => l.type = .user || l.type = .assistant).length
    toolCallCount := (analysis.toolCounts.map fun kv => kv.2).foldl (· + ·) 0
    commitCount := analysis.commits.length
    pageCount := totalPages }

/-- The href of the index entry for the conversation at `index`:
`pageNum = Math.floor(index / PROMPTS_PER_PAGE) + 1` (renderIndexPage,
line 310) and IndexItem's
`page-${String(pageNum).padStart(3, "0")}.html#msg-${timestamp.replace(/[:.]/g, "-")}`
(src/render/index-page.tsx, lines 26-31). -/
def indexEntryHref (index : Nat) (timestamp : String) : String :=
  let pageNum := index / PROMPTS_PER_PAGE + 1
  let pageFile := "page-" ++ padStart3 (toString pageNum) ++ ".html"
  let msgId := "msg-" ++ String.mk
    (timestamp.toList.map fun c => if c = ':' ∨ c = '.' then '-' else c)
  pageFile ++ "#" ++ msgId

/-! ### Markdown helpers (src/render/markdown.ts)

The HTML serializer (preact-render-to-string) and the markdown engine
(marked) are external collaborators excluded by the spec; components below
emit their markup directly, with text children emitted verbatim. -/

/-- Modelled from the spec: the external markdown-to-HTML engine (marked),
a black box; no verified claim depends on its output, so it is modelled as
the identity transformation. -/
def markedParse (text : String) : String := text

/-- renderMarkdown (src/render/markdown.ts): empty/falsy text yields "". -/
def renderMarkdown (text : String) : String :=
  if text = "" then "" else markedParse text

/-- renderMarkdown applied to an arbitrary runtime value: falsy values
yield "", a truthy non-string makes `marked.parse` throw. -/
def renderMarkdownVal (v : JsVal) : Option String :=
  if !jsTruthy v then some ""
  else match v with
    | .val (.str s) => some (markedParse s)
    | _ => none

/-- escapeHtml (src/render/markdown.ts). The source chains five global
replaces; mapping per character is equivalent because no replacement string
contains a character replaced by a later step. -/
def escapeHtmlChar (c : Char) : String :=
  if c = '&' then "&amp;"
  else if c = '<' then "&lt;"
  else if c = '>' then "&gt;"
  else if c = '"' then "&quot;"
  else if c = '\'' then "&#039;"
  else String.singleton c

def escapeHtml (text : String) : String :=
  String.join (text.toList.map escapeHtmlChar)

/-- isJsonLike (src/render/markdown.ts). -/
def isJsonLike (text : String) : Bool :=
  if text = "" then false
  else
    let trimmed := jsTrim text
    (jsStartsWith trimmed "\x7b" && jsEndsWith trimmed "\x7d") ||
      (jsStartsWith trimmed "[" && jsEndsWith trimmed "]")

/-- formatJson (src/render/markdown.ts) at its call sites, where the value
is a string: parse it, pretty-print, escape; fall back to the escaped
string itself when parsing throws. -/
def formatJson (value : String) : String :=
  match jsonParse value with
  | some obj => "<pre class=\"json\">" ++ escapeHtml (jsonPretty 0 obj) ++ "</pre>"
  | none => "<pre>" ++ escapeHtml value ++ "</pre>"

/-! ### JS string coercion -/

mutual

/-- JS `String(value)` on a JSON value (arrays stringify as their
comma-joined elements, objects as `[object Object]`). -/
def jsToStringJson : Json → String
  | .null => "null"
  | .bool b => if b then "true" else "false"
  | .num l => l
  | .str s => s
  | .arr items => jsToStringArr items
  | .obj _ => "[object Object]"

def jsToStringArr : List Json → String
  | [] => ""
  | [j] => jsToStringJson j
  | j :: rest => jsToStringJson j ++ "," ++ jsToStringArr rest

end

/-- JS `String(x)` on a property-access result. -/
def jsValToString : JsVal → String
  | .undefined => "undefined"
  | .val j => jsToStringJson j

/-- How preact renders an interpolated child: strings and number lexemes
verbatim, null/undefined/booleans as nothing. -/
def childText : JsVal → String
  | .undefined => ""
  | .val .null => ""
  | .val (.bool _) => ""
  | .val (.str s) => s
  | .val (.num l) => l
  | .val j => jsToStringJson j

/-- A `data-tool-id` attribute: preact omits attributes whose value is
null or undefined. -/
def dataToolIdAttr : JsVal → String
  | .undefined => ""
  | .val .null => ""
  | .val j => " data-tool-id=\"" ++ jsToStringJson j ++ "\""

/-! ### Components (src/render/jsx.tsx, src/render/tool-renderers.tsx,
src/render/content-blocks.tsx) -/

/-- Truncatable (src/render/jsx.tsx): the collapsible content wrapper. -/
def truncatableHtml (inner : String) : String :=
  "<div class=\"truncatable\"><div class=\"truncatable-content\">" ++ inner ++
    "</div><button class=\"expand-btn\">Show more</button></div>"

/-- getFilename (src/render/tool-renderers.tsx). -/
def getFilename (filePath : String) : String :=
  if filePath.toList.contains '/' then
    ((splitOnChar '/' filePath.toList).map String.mk).getLastD filePath
  else filePath

/-- WriteToolBlock (src/render/tool-renderers.tsx). -/
def writeToolBlockHtml (filePath content : String) (toolId : JsVal) : String :=
  "<div class=\"file-tool write-tool\"" ++ dataToolIdAttr toolId ++
    "><div class=\"file-tool-header write-header\"><span class=\"file-tool-icon\">📝</span> Write <span class=\"file-tool-path\">" ++
    getFilename filePath ++ "</span></div><div class=\"file-tool-fullpath\">" ++
    filePath ++ "</div>" ++
    truncatableHtml ("<pre class=\"file-content\">" ++ content ++ "</pre>") ++
    "</div>"

/-- EditToolBlock (src/render/tool-renderers.tsx). -/
def editToolBlockHtml (filePath oldString newString : String)
    (replaceAll : Bool) (toolId : JsVal) : String :=
  "<div class=\"file-tool edit-tool\"" ++ dataToolIdAttr toolId ++
    "><div class=\"file-tool-header edit-header\"><span class=\"file-tool-icon\">✏️</span> Edit <span class=\"file-tool-path\">" ++
    getFilename filePath ++ "</span>" ++
    (if replaceAll then "<span class=\"edit-replace-all\">(replace all)</span>" else "") ++
    "</div><div class=\"file-tool-fullpath\">" ++ filePath ++ "</div>" ++
    truncatableHtml
      ("<div class=\"edit-section edit-old\"><div class=\"edit-label\">−</div><pre class=\"edit-content\">" ++
        oldString ++
        "</pre></div><div class=\"edit-section edit-new\"><div class=\"edit-label\">+</div><pre class=\"edit-content\">" ++
        newString ++ "</pre></div>") ++
    "</div>"

/-- BashToolBlock (src/render/tool-renderers.tsx). -/
def bashToolBlockHtml (command : String) (description : Option String)
    (toolId : JsVal) : String :=
  "<div class=\"tool-use bash-tool\"" ++ dataToolIdAttr toolId ++
    "><div class=\"tool-header\"><span class=\"tool-icon\">$</span> Bash</div>" ++
    (match description with
     | some d => "<div class=\"tool-description\">" ++ d ++ "</div>"
     | none => "") ++
    truncatableHtml ("<pre class=\"bash-command\">" ++ command ++ "</pre>") ++
    "</div>"

/-- Status icon of TodoWriteBlock (src/render/tool-renderers.tsx). -/
def todoIcon (status : String) : String :=
  if status = "completed" then "✓"
  else if status = "in_progress" then "→"
  else "○"

/-- TodoWriteBlock (src/render/tool-renderers.tsx). -/
def todoWriteBlockHtml (todos : List (String × String)) (toolId : JsVal) : String :=
  "<div class=\"todo-list\"" ++ dataToolIdAttr toolId ++
    "><div class=\"todo-header\"><span class=\"todo-header-icon\">☰</span> Task List</div><ul class=\"todo-items\">" ++
    String.join (todos.map fun t =>
      "<li class=\"todo-item todo-" ++ t.2 ++ "\"><span class=\"todo-icon\">" ++
        todoIcon t.2 ++ "</span><span class=\"todo-content\">" ++ t.1 ++
        "</span></li>") ++
    "</ul></div>"

/-- ImageBlock (src/render/content-blocks.tsx): destructuring
`block.source` throws when `source` is null or undefined; the data-URI
template coerces missing fields to the string `undefined`. -/
def imageBlockHtml (block : Json) : Option String := do
  let srcV ← jsGetProp block "source"
  match srcV with
  | .undefined => none
  | .val .null => none
  | .val src => do
    let mt ← jsGetProp src "media_type"
    let data ← jsGetProp src "data"
    return "<div class=\"image-block\"><img src=\"data:" ++ jsValToString mt ++
      ";base64," ++ jsValToString data ++
      "\" style=\"max-width: 100%\" alt=\"User uploaded image\"/></div>"

/-- Generic ToolUse component (src/render/content-blocks.tsx, lines 58-76). -/
def toolUseGenericHtml (block : Json) : Option String := do
  let inputV ← jsGetProp block "input"
  let idV ← jsGetProp block "id"
  let nameV ← jsGetProp block "name"
  let descV ← jsGetProp block "description"
  let inputJson := match inputV with
    | .undefined => ""
    | .val j => jsonPretty 0 j
  return "<div class=\"tool-use\"" ++ dataToolIdAttr idV ++
    "><div class=\"tool-header\"><span class=\"tool-icon\">⚙</span> " ++
    childText nameV ++ "</div>" ++
    (if jsTruthy descV then
      "<div class=\"tool-description\">" ++ childText descV ++ "</div>"
     else "") ++
    truncatableHtml ("<pre class=\"json\">" ++ inputJson ++ "</pre>") ++
    "</div>"

/-- One item of an array-shaped tool-result content (ToolResult component):
an image item goes through ImageBlock, a text item emits its text, anything
else is JSON-dumped. Accessing `item.type` throws when the item is null. -/
def toolResultItemHtml (item : Json) : Option String := do
  let t ← jsGetProp item "type"
  match t with
  | .val (.str "image") => imageBlockHtml item
  | .val (.str "text") => do
    let tx ← jsGetProp item "text"
    return "<div>" ++ childText tx ++ "</div>"
  | _ => return "<div>" ++ jsonStringify item ++ "</div>"

/-- The `hasImages` probe of ToolResult:
`content.some((item) => item.type === 'image')`. -/
def someItemIsImage : List Json → Option Bool
  | [] => some false
  | item :: rest => do
    let t ← jsGetProp item "type"
    match t with
    | .val (.str "image") => some true
    | _ => someItemIsImage rest

/-- Rendering of one scanned tool-result part: text verbatim, matches as
linked commit cards with the 7-character short hash. -/
def toolResultPartHtml (githubRepo : String) : ToolResultPart → String
  | .text s => s
  | .commit hash message =>
    "<div class=\"commit-card\"><a href=\"https://github.com/" ++ githubRepo ++
      "/commit/" ++ hash ++ "\"><span class=\"commit-card-hash\">" ++
      String.mk (hash.toList.take 7) ++ "</span> " ++ message ++ "</a></div>"

/-- ToolResult (src/render/content-blocks.tsx, lines 97-196). -/
def toolResultHtml (block : Json) (githubRepo : Option String) : Option String := do
  let isErrorV ← jsGetProp block "is_error"
  let contentV ← jsGetProp block "content"
  let hasImages ← match contentV with
    | .val (.arr items) => someItemIsImage items
    | _ => some false
  let renderedContent ← match contentV with
    | .val (.arr items) => do
      let parts ← items.mapM toolResultItemHtml
      pure (String.join parts)
    | .val (.str s) =>
      let repoTruthy : Bool := match githubRepo with
        | some r => r ≠ ""
        | none => false
      if repoTruthy && rendererHasMatch s.toList then
        pure (String.join ((rendererScanGo [] s.toList).map
          (toolResultPartHtml (githubRepo.getD ""))))
      else pure s
    | .undefined => pure ""
    | .val j => pure (jsonStringify j)
  let className := "tool-result" ++ (if jsTruthy isErrorV then " tool-error" else "")
  if hasImages then
    return "<div class=\"" ++ className ++ "\">" ++ renderedContent ++ "</div>"
  else
    return "<div class=\"" ++ className ++ "\">" ++ truncatableHtml renderedContent ++
      "</div>"

/-- ThinkingBlock (src/render/content-blocks.tsx). -/
def thinkingBlockHtml (inner : String) : String :=
  "<div class=\"thinking\"><div class=\"thinking-label\">Thinking</div><div>" ++
    inner ++ "</div></div>"

/-- AssistantText (src/render/content-blocks.tsx). -/
def assistantTextHtml (inner : String) : String :=
  "<div class=\"assistant-text\">" ++ inner ++ "</div>"

/-- The todos extraction of the todowrite dispatch arm
(src/render/content-blocks.tsx, lines 286-289): `t.content` and `t.status`
throw on a null entry; missing/falsy status defaults to `pending`. -/
def extractTodos : List Json → Option (List (String × String))
  | [] => some []
  | t :: rest => do
    let contentV ← jsGetProp t "content"
    let statusV ← jsGetProp t "status"
    let content := jsValToString (jsOr contentV (.val (.str "")))
    let status := if jsTruthy statusV then jsValToString statusV else "pending"
    let others ← extractTodos rest
    return (content, status) :: others

/-- renderContentBlock (src/render/content-blocks.tsx, lines 237-316), on
the runtime JSON view of the block; `none` models a thrown exception. -/
def renderContentBlock (block : Json) (githubRepo : Option String) : Option String := do
  let tv ← jsGetProp block "type"
  match tv with
  | .val (.str "thinking") => do
    let th ← jsGetProp block "thinking"
    let inner ← renderMarkdownVal th
    return thinkingBlockHtml inner
  | .val (.str "text") => do
    let tx ← jsGetProp block "text"
    let inner ← renderMarkdownVal tx
    return assistantTextHtml inner
  | .val (.str "tool_use") => do
    let nameV ← jsGetProp block "name"
    match nameV with
    | .val (.str name) =>
      let toolName := jsToLower name
      let idV ← jsGetProp block "id"
      let inputV ← jsGetProp block "input"
      if toolName = "write" ∨ toolName = "mcp_write" then
        match inputV with
        | .undefined => none
        | .val .null => none
        | .val input => do
          let fp ← jsGetProp input "file_path"
          let fpc ← jsGetProp input "filePath"
          let c ← jsGetProp input "content"
          return writeToolBlockHtml
            (jsValToString (jsOr fp (jsOr fpc (.val (.str "")))))
            (jsValToString (jsOr c (.val (.str "")))) idV
      else if toolName = "edit" ∨ toolName = "mcp_edit" then
        match inputV with
        | .undefined => none
        | .val .null => none
        | .val input => do
          let fp ← jsGetProp input "file_path"
          let fpc ← jsGetProp input "filePath"
          let os ← jsGetProp input "old_string"
          let osc ← jsGetProp input "oldString"
          let ns ← jsGetProp input "new_string"
          let nsc ← jsGetProp input "newString"
          let ra ← jsGetProp input "replace_all"
          let rac ← jsGetProp input "replaceAll"
          return editToolBlockHtml
            (jsValToString (jsOr fp (jsOr fpc (.val (.str "")))))
            (jsValToString (jsOr os (jsOr osc (.val (.str "")))))
            (jsValToString (jsOr ns (jsOr nsc (.val (.str "")))))
            (jsTruthy (jsOr ra rac)) idV
      else if toolName = "bash" ∨ toolName = "mcp_bash" then
        match inputV with
        | .undefined => none
        | .val .null => none
        | .val input => do
          let cmd ← jsGetProp input "command"
          let desc ← jsGetProp input "description"
          return bashToolBlockHtml
            (jsValToString (jsOr cmd (.val (.str ""))))
            (if jsTruthy desc then some (jsValToString desc) else none) idV
      else if toolName = "todowrite" ∨ toolName = "mcp_todowrite" then
        match inputV with
        | .undefined => none
        | .val .null => none
        | .val input => do
          let todosV ← jsGetProp input "todos"
          let todos ← match todosV with
            | .val (.arr items) => extractTodos items
            | _ => pure []
          return todoWriteBlockHtml todos idV
      else
        toolUseGenericHtml block
    | _ => none
  | .val (.str "tool_result") => toolResultHtml block githubRepo
  | .val (.str "image") => imageBlockHtml block
  | _ =>
    return "<div class=\"unknown-block\"><pre>" ++ jsonPretty 0 block ++
      "</pre></div>"

/-! ### Message rendering (src/render/content-blocks.tsx UserContent,
src/render/message.tsx) -/

/-- UserContent (src/render/content-blocks.tsx, lines 201-228). Array
content maps each block through renderContentBlock (without a repo);
string content is JSON-pretty-printed when it looks like JSON, else
markdown-rendered; always wrapped in the user-content container. -/
def renderUserContent (message : Message) : Option String :=
  match message.content with
  | .blocks content => do
    let parts ← content.mapM (fun b => renderContentBlock (ContentBlock.toJson b) none)
    return "<div class=\"user-content\">" ++ String.join parts ++ "</div>"
  | .str content =>
    if isJsonLike content then
      some ("<div class=\"user-content\">" ++ formatJson content ++ "</div>")
    else
      some ("<div class=\"user-content\">" ++ renderMarkdown content ++ "</div>")

/-- renderAssistantMessage (src/render/message.tsx, lines 149-161). -/
def renderAssistantMessage (message : Message) (githubRepo : Option String) :
    Option String :=
  match message.content with
  | .str s => some ("<p>" ++ s ++ "</p>")
  | .blocks content => do
    let parts ← content.mapM
      (fun b => renderContentBlock (ContentBlock.toJson b) githubRepo)
    return String.join parts

/-- MessageComponent (src/render/message.tsx, lines 25-48). -/
def messageComponentHtml (roleClass roleLabel msgId timestamp contentHtml : String) :
    String :=
  "<div class=\"message " ++ roleClass ++ "\" id=\"" ++ msgId ++
    "\"><div class=\"message-header\"><span class=\"role-label\">" ++ roleLabel ++
    "</span><a href=\"#" ++ msgId ++
    "\" class=\"timestamp-link\"><time datetime=\"" ++ timestamp ++
    "\" data-timestamp=\"" ++ timestamp ++ "\">" ++ timestamp ++
    "</time></a></div><div class=\"message-content\">" ++ contentHtml ++
    "</div></div>"

/-- renderMessage (src/render/message.tsx, lines 89-144), with the two
renderer callbacks inlined as renderPage (src/render/transcript.tsx,
lines 137-141) instantiates them. `messageJson` is never the empty string
and always re-parses, being the stringification of a message value, so the
two early-return guards on it never fire. Returns `some ""` when the
message is skipped, `none` when rendering throws. -/
def renderMessage (logType : MsgRole) (message : Message) (timestamp : String)
    (githubRepo : Option String) : Option String := do
  let contentHtml ← match logType with
    | .user => renderUserContent message
    | .assistant => renderAssistantMessage message githubRepo
  let roleClass := match logType with
    | .user => if isToolResultMessage message then "tool-reply" else "user"
    | .assistant => "assistant"
  let roleLabel := match logType with
    | .user => if isToolResultMessage message then "Tool reply" else "User"
    | .assistant => "Assistant"
  if jsTrim contentHtml = "" then pure ""
  else pure (messageComponentHtml roleClass roleLabel (makeMsgId timestamp)
    timestamp contentHtml)

/-! ### Verification: pagination -/

/-- Reference form of the pagination loop state: the chunks still to be
emitted given a partially filled current page. -/
def chunkedFrom : List Conversation → List Conversation → List (List Conversation)
  | cur, [] => if cur.isEmpty then [] else [cur]
  | cur, x :: xs =>
    let c := cur ++ [x]
    if 5 ≤ c.length then c :: chunkedFrom [] xs else chunkedFrom c xs

/-- Reference chunking: consecutive chunks of 5 with the remainder last. -/
def chunked5 : List Conversation → List (List Conversation)
  | [] => []
  | x :: xs => (x :: xs).take 5 :: chunked5 ((x :: xs).drop 5)
termination_by l => l.length
decreasing_by
  simp only [List.length_drop, List.length_cons]
  omega

theorem paginate_foldl (l : List Conversation) :
    ∀ (pages : List (List Conversation)) (cur : List Conversation),
      (if (l.foldl (pagStep 5) (pages, cur)).2.isEmpty then
        (l.foldl (pagStep 5) (pages, cur)).1
       else
        (l.foldl (pagStep 5) (pages, cur)).1 ++ [(l.foldl (pagStep 5) (pages, cur)).2]) =
      pages ++ chunkedFrom cur l := by
  induction l with
  | nil =>
    intro pages cur
    cases cur <;> simp [chunkedFrom]
  | cons x xs ih =>
    intro pages cur
    simp only [List.foldl_cons, chunkedFrom]
    by_cases h : 5 ≤ (cur ++ [x]).length
    · simp only [pagStep, h, if_pos]
      rw [ih]
      simp
    · simp only [pagStep, h, if_neg, if_false]
      rw [ih]

theorem chunkedFrom_eq_chunked5 :
    ∀ (l cur : List Conversation), cur.length < 5 →
      chunkedFrom cur l = chunked5 (cur ++ l) := by
  intro l
  induction l with
  | nil =>
    intro cur hcur
    match cur with
    | [] => simp [chunkedFrom, chunked5]
    | y :: ys =>
      rw [chunkedFrom]
      simp only [List.length_cons] at hcur
      simp only [List.isEmpty_cons, List.append_nil, if_false, Bool.false_eq_true]
      rw [chunked5]
      rw [List.take_of_length_le (by simp; omega),
        List.drop_eq_nil_of_le (by simp; omega)]
      simp [chunked5]
  | cons x xs ih =>
    intro cur hcur
    rw [chunkedFrom]
    by_cases h : 5 ≤ (cur ++ [x]).length
    · rw [if_pos h]
      have hlen : (cur ++ [x]).length = 5 := by
        simp only [List.length_append, List.length_cons, List.length_nil] at h ⊢
        omega
      rw [ih [] (by simp)]
      have hsplit : cur ++ x :: xs = (cur ++ [x]) ++ xs := by simp
      rw [hsplit]
      obtain ⟨z, zs, hc⟩ : ∃ z zs, cur ++ [x] = z :: zs := by
        match cur with
        | [] => exact ⟨x, [], rfl⟩
        | y :: ys => exact ⟨y, ys ++ [x], by simp⟩
      rw [hc] at hlen ⊢
      rw [List.cons_append, chunked5, ← List.cons_append]
      rw [← hlen, List.take_left, List.drop_left]
      simp
    · rw [if_neg h]
      rw [ih (cur ++ [x]) (by simp at h ⊢; omega)]
      simp

/-- The paginator is exactly chunking into consecutive blocks of 5. -/
theorem paginateConversations_eq_chunked5 (l : List Conversation) :
    paginateConversations l = chunked5 l := by
  have h := paginate_foldl l [] []
  rw [chunkedFrom_eq_chunked5 l [] (by simp)] at h
  simpa [paginateConversations, PROMPTS_PER_PAGE] using h

theorem chunked5_flatten : ∀ (l : List Conversation), (chunked5 l).flatten = l := by
  intro l
  induction l using chunked5.induct with
  | case1 => simp [chunked5]
  | case2 x xs ih =>
    rw [chunked5, List.flatten_cons, ih]
    exact List.take_append_drop 5 (x :: xs)

/-- The page sizes as a function of the conversation count. -/
def sizesList : Nat → List Nat
  | 0 => []
  | n + 1 => if n + 1 ≤ 5 then [n + 1] else 5 :: sizesList (n + 1 - 5)

theorem chunked5_sizes : ∀ (l : List Conversation),
    (chunked5 l).map List.length = sizesList l.length := by
  intro l
  induction l using chunked5.induct with
  | case1 => simp [chunked5, sizesList]
  | case2 x xs ih =>
    rw [chunked5, List.map_cons, ih]
    simp only [List.length_take, List.length_drop, List.length_cons]
    rw [sizesList]
    by_cases h : xs.length + 1 ≤ 5
    · rw [if_pos h]
      have h2 : xs.length + 1 - 5 = 0 := by omega
      rw [h2]
      simp only [sizesList]
      congr 1
      omega
    · rw [if_neg h]
      congr 1
      omega

theorem sizesList_length (n : Nat) : (sizesList n).length = (n + 4) / 5 := by
  induction n using Nat.strong_induction_on with
  | _ n ih =>
    match n with
    | 0 => simp [sizesList]
    | m + 1 =>
      rw [sizesList]
      by_cases h : m + 1 ≤ 5
      · rw [if_pos h]; simp; omega
      · rw [if_neg h]
        simp only [List.length_cons]
        rw [ih (m + 1 - 5) (by omega)]
        omega

theorem sizesList_mem (n : Nat) : ∀ a ∈ sizesList n, 1 ≤ a ∧ a ≤ 5 := by
  induction n using Nat.strong_induction_on with
  | _ n ih =>
    match n with
    | 0 => simp [sizesList]
    | m + 1 =>
      rw [sizesList]
      by_cases h : m + 1 ≤ 5
      · rw [if_pos h]; simp; omega
      · rw [if_neg h]
        intro a ha
        rcases List.mem_cons.mp ha with rfl | ha
        · omega
        · exact ih (m + 1 - 5) (by omega) a ha

theorem sizesList_dropLast (n : Nat) : ∀ a ∈ (sizesList n).dropLast, a = 5 := by
  induction n using Nat.strong_induction_on with
  | _ n ih =>
    match n with
    | 0 => simp [sizesList]
    | m + 1 =>
      rw [sizesList]
      by_cases h : m + 1 ≤ 5
      · rw [if_pos h]; simp
      · rw [if_neg h]
        intro a ha
        have hne : sizesList (m + 1 - 5) ≠ [] := by
          have : m + 1 - 5 ≠ 0 := by omega
          match hm : m + 1 - 5 with
          | 0 => omega
          | k + 1 =>
            rw [sizesList]
            split <;> simp
        rw [List.dropLast_cons_of_ne_nil hne] at ha
        rcases List.mem_cons.mp ha with rfl | ha
        · rfl
        · exact ih (m + 1 - 5) (by omega) a ha

theorem chunked5_getD (l : List Conversation) (i : Nat) (hi : i < l.length) :
    i / 5 < (chunked5 l).length ∧
    ((chunked5 l).getD (i / 5) []).getD (i % 5) default = l.getD i default := by
  induction l using chunked5.induct generalizing i with
  | case1 => simp at hi
  | case2 x xs ih =>
    rw [chunked5]
    by_cases h : i < 5
    · have h0 : i / 5 = 0 := by omega
      have hm : i % 5 = i := by omega
      rw [h0, hm]
      refine ⟨by simp, ?_⟩
      simp only [List.getD_cons_zero]
      rw [List.getD_eq_getElem?_getD, List.getD_eq_getElem?_getD,
        List.getElem?_take_of_lt h]
    · have hstep : i / 5 = (i - 5) / 5 + 1 := by omega
      have hm : i % 5 = (i - 5) % 5 := by omega
      have hi' : i - 5 < ((x :: xs).drop 5).length := by
        simp only [List.length_drop, List.length_cons]
        simp only [List.length_cons] at hi
        omega
      obtain ⟨ihl, ihv⟩ := ih (i - 5) hi'
      constructor
      · simp only [List.length_cons]
        omega
      · rw [hstep, hm]
        simp only [List.getD_cons_succ]
        rw [ihv]
        rw [List.getD_eq_getElem?_getD, List.getD_eq_getElem?_getD,
          List.getElem?_drop]
        congr 2
        omega

/-- C2: the paginator partitions its input in order into consecutive chunks
of exactly 5 conversations, the final chunk holding the remainder (1..5);
empty input yields an empty page list; totalPages is ceil(n/5) for n > 0 and
0 for n = 0; 12 conversations yield pages of sizes [5, 5, 2]. -/
theorem pagination_partitions_into_chunks_of_five (l : List Conversation) :
    (paginateConversations l).flatten = l ∧
    (∀ p ∈ (paginateConversations l).dropLast, p.length = 5) ∧
    (∀ p ∈ paginateConversations l, 1 ≤ p.length ∧ p.length ≤ 5) ∧
    (l = [] → paginateConversations l = []) ∧
    (paginateConversations l).length = calculateTotalPages l.length ∧
    calculateTotalPages l.length =
      (if l.length = 0 then 0 else (l.length + 4) / 5) ∧
    (l.length = 12 → (paginateConversations l).map List.length = [5, 5, 2]) := by
  rw [paginateConversations_eq_chunked5]
  refine ⟨chunked5_flatten l, ?_, ?_, ?_, ?_, ?_, ?_⟩
  · intro p hp
    have h1 : p.length ∈ ((chunked5 l).map List.length).dropLast := by
      rw [← List.map_dropLast]
      exact List.mem_map_of_mem List.length hp
    rw [chunked5_sizes] at h1
    exact sizesList_dropLast l.length _ h1
  · intro p hp
    have h1 : p.length ∈ (chunked5 l).map List.length :=
      List.mem_map_of_mem List.length hp
    rw [chunked5_sizes] at h1
    exact sizesList_mem l.length _ h1
  · intro h; subst h; simp [chunked5]
  · have h1 : (chunked5 l).length = ((chunked5 l).map List.length).length := by
      simp
    rw [h1, chunked5_sizes, sizesList_length, calculateTotalPages]
    split
    · omega
    · simp only [PROMPTS_PER_PAGE]
      omega
  · rw [calculateTotalPages]
    split
    · simp
    · simp only [PROMPTS_PER_PAGE]
      omega
  · intro h12
    have hsz := chunked5_sizes l
    rw [h12] at hsz
    have hlen3 : ((chunked5 l).map List.length).length = 3 := by
      rw [hsz, sizesList_length]
    obtain ⟨a, b, c, hL⟩ := List.length_eq_three.mp hlen3
    have hmem : ∀ y ∈ ((chunked5 l).map List.length).dropLast, y = 5 := by
      rw [hsz]
      exact sizesList_dropLast 12
    rw [hL] at hmem
    have ha : a = 5 := hmem a (by simp)
    have hb : b = 5 := hmem b (by simp)
    have hsum : a + (b + c) = 12 := by
      have hflat := congrArg List.length (chunked5_flatten l)
      rw [List.length_flatten, hL, h12] at hflat
      simpa using hflat
    have hc : c = 2 := by omega
    rw [hL, ha, hb, hc]

/-! ### Verification: conversation grouping -/

/-- The spec's conversation invariant: the first message is a genuine user
prompt (a user turn whose content is not a non-empty all-tool-result block
list), carrying the conversation's timestamp, and no later message is a
genuine user prompt. -/
def convInvariant (c : Conversation) : Prop :=
  ∃ m rest, c.messages = m :: rest ∧ m.type = .user ∧
    isToolResultMessage m.messageJson = false ∧ m.timestamp = c.timestamp ∧
    ∀ m' ∈ rest, m'.type = .assistant ∨ isToolResultMessage m'.messageJson = true

/-- The conversation-opening prompt an entry contributes, if any: a user
turn with a resolvable message that is not purely tool results. -/
def promptOf (l : Logline) : Option ConversationMessage :=
  if l.type = .user then
    match getMessageFromLogline l with
    | some m =>
      if isToolResultMessage m then none
      else some { type := .user, messageJson := m, timestamp := l.timestamp.getD "" }
    | none => none
  else none

def stateInv (st : GroupState) : Prop :=
  (∀ c ∈ st.done, convInvariant c) ∧ ∀ c, st.current = some c → convInvariant c

theorem groupStep_spec (st : GroupState) (x : Logline) (hinv : stateInv st) :
    stateInv (groupStep st x) ∧
    ((groupStep st x).done ++ (groupStep st x).current.toList).map
        (fun c => c.messages.head?) =
      ((st.done ++ st.current.toList).map (fun c => c.messages.head?)) ++
        ((promptOf x).map (fun m => some m)).toList := by
  obtain ⟨hdone, hcur⟩ := hinv
  cases ht : x.type with
  | summary =>
    have hstep : groupStep st x = st := by simp [groupStep, ht]
    have hpr : promptOf x = none := by simp [promptOf, ht]
    rw [hstep, hpr]
    exact ⟨⟨hdone, hcur⟩, by simp⟩
  | tool_use =>
    have hstep : groupStep st x = st := by simp [groupStep, ht]
    have hpr : promptOf x = none := by simp [promptOf, ht]
    rw [hstep, hpr]
    exact ⟨⟨hdone, hcur⟩, by simp⟩
  | tool_result =>
    have hstep : groupStep st x = st := by simp [groupStep, ht]
    have hpr : promptOf x = none := by simp [promptOf, ht]
    rw [hstep, hpr]
    exact ⟨⟨hdone, hcur⟩, by simp⟩
  | user =>
    cases hm : getMessageFromLogline x with
    | none =>
      have hstep : groupStep st x = st := by simp [groupStep, ht, hm]
      have hpr : promptOf x = none := by simp [promptOf, ht, hm]
      rw [hstep, hpr]
      exact ⟨⟨hdone, hcur⟩, by simp⟩
    | some m =>
      by_cases htr : isToolResultMessage m
      · have hpr : promptOf x = none := by simp [promptOf, ht, hm, htr]
        cases hc : st.current with
        | none =>
          have hstep : groupStep st x = st := by simp [groupStep, ht, hm, htr, hc]
          rw [hstep, hpr]
          exact ⟨⟨hdone, hcur⟩, by simp [hc]⟩
        | some c =>
          obtain ⟨m0, rest, hmsgs, hm0u, hm0t, hm0ts, hrest⟩ := hcur c hc
          have hstep : groupStep st x =
              { done := st.done, current := some { c with messages := c.messages ++
                  [{ type := .user, messageJson := m,
                     timestamp := x.timestamp.getD "" }] } } := by
            simp [groupStep, ht, hm, htr, hc]
          rw [hstep, hpr]
          constructor
          · refine ⟨hdone, ?_⟩
            intro c' hc'
            simp only [Option.some.injEq] at hc'
            subst hc'
            refine ⟨m0, rest ++ [(⟨.user, m, x.timestamp.getD ""⟩ : ConversationMessage)],
              by simp [hmsgs], hm0u, hm0t, hm0ts, ?_⟩
            intro m' hm'
            rcases List.mem_append.mp hm' with h | h
            · exact hrest m' h
            · simp only [List.mem_singleton] at h
              subst h
              exact Or.inr htr
          · simp [hc, hmsgs]
      · have hpr : promptOf x =
            some { type := .user, messageJson := m,
                   timestamp := x.timestamp.getD "" } := by
          simp [promptOf, ht, hm, htr]
        have hstep : groupStep st x =
            { done := st.done ++ st.current.toList, current := some
                { userText := getUserTextPreview m
                  timestamp := x.timestamp.getD ""
                  messages := [{ type := .user, messageJson := m,
                                 timestamp := x.timestamp.getD "" }]
                  isContinuation := x.isCompactSummary.getD false } } := by
          simp [groupStep, ht, hm, htr]
        rw [hstep, hpr]
        constructor
        · constructor
          · intro c' hc'
            rcases List.mem_append.mp hc' with h | h
            · exact hdone c' h
            · exact hcur c' (Option.mem_toList.mp h)
          · intro c' hc'
            simp only [Option.some.injEq] at hc'
            subst hc'
            exact ⟨_, [], rfl, rfl, by simpa using htr, rfl, by simp⟩
        · simp [List.map_append]
  | assistant =>
    have hpr : promptOf x = none := by simp [promptOf, ht]
    cases hc : st.current with
    | none =>
      have hstep : groupStep st x = st := by
        cases hm : getMessageFromLogline x <;> simp [groupStep, ht, hm, hc]
      rw [hstep, hpr]
      exact ⟨⟨hdone, hcur⟩, by simp [hc]⟩
    | some c =>
      obtain ⟨m0, rest, hmsgs, hm0u, hm0t, hm0ts, hrest⟩ := hcur c hc
      cases hm : getMessageFromLogline x with
      | none =>
        have hstep : groupStep st x = st := by simp [groupStep, ht, hm]
        rw [hstep, hpr]
        exact ⟨⟨hdone, hcur⟩, by simp [hc]⟩
      | some m =>
        have hstep : groupStep st x =
            { done := st.done, current := some { c with messages := c.messages ++
                [{ type := .assistant, messageJson := m,
                   timestamp := x.timestamp.getD "" }] } } := by
          simp [groupStep, ht, hm, hc]
        rw [hstep, hpr]
        constructor
        · refine ⟨hdone, ?_⟩
          intro c' hc'
          simp only [Option.some.injEq] at hc'
          subst hc'
          refine ⟨m0, rest ++ [(⟨.assistant, m, x.timestamp.getD ""⟩ : ConversationMessage)],
            by simp [hmsgs], hm0u, hm0t, hm0ts, ?_⟩
          intro m' hm'
          rcases List.mem_append.mp hm' with h | h
          · exact hrest m' h
          · simp only [List.mem_singleton] at h
            subst h
            exact Or.inl rfl
        · simp [hc, hmsgs]

theorem foldl_groupStep_spec (l : List Logline) :
    ∀ st, stateInv st →
      stateInv (l.foldl groupStep st) ∧
      ((l.foldl groupStep st).done ++ (l.foldl groupStep st).current.toList).map
          (fun c => c.messages.head?) =
        ((st.done ++ st.current.toList).map (fun c => c.messages.head?)) ++
          (l.filterMap promptOf).map (fun m => some m) := by
  induction l with
  | nil => intro st hst; exact ⟨hst, by simp⟩
  | cons x xs ih =>
    intro st hst
    obtain ⟨h1, h2⟩ := groupStep_spec st x hst
    obtain ⟨h3, h4⟩ := ih (groupStep st x) h1
    refine ⟨h3, ?_⟩
    rw [List.foldl_cons]
    rw [h4, h2, List.filterMap_cons]
    cases hp : promptOf x <;> simp [hp]

theorem grouper_mem_convInvariant (loglines : List Logline) :
    ∀ c ∈ groupLoglinesToConversations loglines, convInvariant c := by
  obtain ⟨⟨h1, h2⟩, _⟩ := foldl_groupStep_spec loglines
    { done := [], current := none } ⟨by simp, by simp⟩
  intro c hc
  simp only [groupLoglinesToConversations] at hc
  rcases List.mem_append.mp hc with h | h
  · exact h1 c h
  · exact h2 c (by simpa using h)

/-- C7: every conversation produced by the grouper begins with a genuine
user prompt (a user turn whose content is not a non-empty all-tool-result
block list) carrying the conversation's timestamp, every later message is an
assistant turn or a pure tool-result relay, and the conversations correspond
one-to-one, in input order, to the qualifying user prompts of the input. -/
theorem grouper_conversations_wellformed (loglines : List Logline) :
    (∀ c ∈ groupLoglinesToConversations loglines, convInvariant c) ∧
    (groupLoglinesToConversations loglines).map (fun c => c.messages.head?) =
      (loglines.filterMap promptOf).map (fun m => some m) := by
  obtain ⟨⟨h1, h2⟩, h3⟩ := foldl_groupStep_spec loglines
    { done := [], current := none } ⟨by simp, by simp⟩
  constructor
  · exact grouper_mem_convInvariant loglines
  · simpa [groupLoglinesToConversations] using h3

/-- C1: after any prefix of entries, a user turn whose resolved message is a
non-empty all-tool-result block list never changes the number of
conversations; it is appended to the currently open conversation when one
exists and leaves the state untouched (silently dropped) otherwise. -/
theorem tool_result_user_turn_never_opens_conversation
    (pre : List Logline) (x : Logline) (m : Message)
    (htype : x.type = .user)
    (hmsg : getMessageFromLogline x = some m)
    (htool : isToolResultMessage m = true) :
    let st := pre.foldl groupStep { done := [], current := none }
    ((groupStep st x).done ++ (groupStep st x).current.toList).length =
      (st.done ++ st.current.toList).length ∧
    (∀ c, st.current = some c →
      groupStep st x = { done := st.done, current := some { c with messages :=
        c.messages ++ [(⟨.user, m, x.timestamp.getD ""⟩ : ConversationMessage)] } }) ∧
    (st.current = none → groupStep st x = st) := by
  intro st
  refine ⟨?_, ?_, ?_⟩
  · cases hc : st.current with
    | none =>
      have hstep : groupStep st x = st := by simp [groupStep, htype, hmsg, htool, hc]
      rw [hstep]
      simp [hc]
    | some c =>
      have hstep : groupStep st x =
          { done := st.done, current := some { c with messages := c.messages ++
              [(⟨.user, m, x.timestamp.getD ""⟩ : ConversationMessage)] } } := by
        simp [groupStep, htype, hmsg, htool, hc]
      rw [hstep]
      simp [hc]
  · intro c hc
    simp [groupStep, htype, hmsg, htool, hc]
  · intro hc
    simp [groupStep, htype, hmsg, htool, hc]

/-- A user turn whose content is one tool-result block, used as concrete
input below. -/
def sampleToolResultMessage : Message :=
  { role := none, content := .blocks [.tool_result none (.str "done") none] }

def sampleToolResultLogline : Logline :=
  { type := .user, message := some sampleToolResultMessage }

theorem tool_result_user_turn_never_opens_conversation_witness :
    (let st := ([] : List Logline).foldl groupStep { done := [], current := none }
     ((groupStep st sampleToolResultLogline).done ++
        (groupStep st sampleToolResultLogline).current.toList).length =
        (st.done ++ st.current.toList).length ∧
     (∀ c, st.current = some c →
       groupStep st sampleToolResultLogline =
         (⟨st.done, some ({ c with messages := c.messages ++
            [(⟨.user, sampleToolResultMessage,
                sampleToolResultLogline.timestamp.getD ""⟩ : ConversationMessage)] })⟩ :
           GroupState)) ∧
     (st.current = none → groupStep st sampleToolResultLogline = st)) :=
  tool_result_user_turn_never_opens_conversation [] sampleToolResultLogline
    sampleToolResultMessage rfl rfl (by decide)

/-! ### Verification: format detection -/

theorem isJsonl_characterization (content : String) :
    isJsonl content = true ↔
      (jsTrim ((jsSplitNl content).headD "") ≠ "" ∧
       ∃ v, jsonParse (jsTrim ((jsSplitNl content).headD "")) = some v ∧
         (match v with
          | .obj fields => ∀ kv ∈ fields, kv.1 ≠ "loglines"
          | .arr _ => True
          | _ => False)) := by
  simp only [isJsonl]
  generalize (jsSplitNl content).headD "" = line
  by_cases h0 : jsTrim line = ""
  · simp [h0]
  · rw [if_neg h0]
    cases hp : jsonParse (jsTrim line) with
    | none => simp [h0, hp]
    | some v =>
      cases v with
      | obj fields =>
        simp only [h0, ne_eq, not_false_iff, true_and, Bool.not_eq_true',
          List.any_eq_false]
        constructor
        · intro h
          exact ⟨.obj fields, rfl, by
            intro kv hkv
            have := h kv hkv
            simpa using this⟩
        · rintro ⟨v', hv', hmatch⟩
          rw [Option.some.injEq] at hv'
          subst hv'
          intro kv hkv
          simpa using hmatch kv hkv
      | arr items => simp [h0, hp]
      | null => simp [h0, hp]
      | bool b => simp [h0, hp]
      | num s2 => simp [h0, hp]
      | str s2 => simp [h0, hp]

/-- C3 (amended): for a path that does not end in the line-delimited
extension, the loader treats the text as line-delimited iff the literal
FIRST line of the text, after trimming, is non-empty and parses as JSON
whose value is an object lacking a top-level "loglines" key or an array.
In particular a leading blank line forces single-document parsing. -/
theorem format_probe_uses_literal_first_line (filePath content : String)
    (hext : jsEndsWith filePath ".jsonl" = false) :
    chooseFormat filePath content = .jsonl ↔
      (jsTrim ((jsSplitNl content).headD "") ≠ "" ∧
       ∃ v, jsonParse (jsTrim ((jsSplitNl content).headD "")) = some v ∧
         (match v with
          | .obj fields => ∀ kv ∈ fields, kv.1 ≠ "loglines"
          | .arr _ => True
          | _ => False)) := by
  rw [← isJsonl_characterization]
  simp only [chooseFormat, hext, Bool.false_or]
  constructor
  · intro h
    by_cases hj : isJsonl content
    · exact hj
    · simp [hj] at h
  · intro h
    simp [h]

theorem format_probe_uses_literal_first_line_witness :
    chooseFormat "session.json" "\x7b\"type\":\"user\"\x7d" = .jsonl ↔
      (jsTrim ((jsSplitNl "\x7b\"type\":\"user\"\x7d").headD "") ≠ "" ∧
       ∃ v, jsonParse (jsTrim ((jsSplitNl "\x7b\"type\":\"user\"\x7d").headD "")) = some v ∧
         (match v with
          | .obj fields => ∀ kv ∈ fields, kv.1 ≠ "loglines"
          | .arr _ => True
          | _ => False)) :=
  format_probe_uses_literal_first_line "session.json" "\x7b\"type\":\"user\"\x7d"
    (by decide)

/-- C3 counterexample: with a leading blank line the first non-blank line
parses as JSON without a top-level "loglines" key, so the claim says the
file is treated as line-delimited; the loader probes only the literal first
line and picks the single-document format. -/
theorem format_probe_ignores_leading_blank_line :
    chooseFormat "session.json" "\n\x7b\"type\":\"user\"\x7d" = SessionFormat.json ∧
    ((jsSplitNl "\n\x7b\"type\":\"user\"\x7d").map jsTrim).filter
      (fun s => s ≠ "") = ["\x7b\"type\":\"user\"\x7d"] ∧
    (match jsonParse "\x7b\"type\":\"user\"\x7d" with
     | some (.obj fields) => fields.all (fun kv => kv.1 ≠ "loglines")
     | _ => false) = true := by
  refine ⟨by decide, by decide, by decide⟩

/-! ### Verification: the two commit patterns (C5) -/

/-- C5 counterexample: the analyzer's pattern matches a ref containing a
space ("release branch") while the tool-result renderer's pattern matches
nothing in the same string, so the two sites do not share one pattern and do
not recognize the same set of strings. -/
theorem commit_patterns_recognize_different_strings :
    analyzerCommitScan "[release branch 1234567] fix".toList =
      some ⟨"release branch", "1234567", "fix"⟩ ∧
    rendererHasMatch "[release branch 1234567] fix".toList = false :=
  ⟨by decide, by decide⟩

/-- C5 (amended): the analyzer and the generic tool-result renderer use two
independently defined commit patterns that are not equivalent: the analyzer
accepts refs containing whitespace that the renderer rejects, and on a
string both match, the analyzer records the message trimmed of trailing
whitespace while the renderer extracts it verbatim. -/
def sampleTrailingWsCommitLogline : Logline :=
  { type := .user
    timestamp := some "ts"
    message := some
      { role := none
        content := .blocks
          [.tool_result none (.str "[master aaaaaaa] done  ") none] } }

theorem commit_patterns_are_two_distinct_definitions :
    analyzerCommitScan "[my branch 1234567] x".toList =
      some ⟨"my branch", "1234567", "x"⟩ ∧
    rendererHasMatch "[my branch 1234567] x".toList = false ∧
    (analyzeConversation [sampleTrailingWsCommitLogline]).commits =
      [⟨"aaaaaaa", "done", "ts"⟩] ∧
    (rendererMatchAt "[master aaaaaaa] done  ".toList).map
        (fun m => (m.hash, m.message)) =
      some ("aaaaaaa", "done  ") :=
  ⟨by decide, by decide, by decide, by decide⟩

/-! ### Verification: analyzer commit extraction (C4) -/

/-- The commit a single tool-result text contributes: the first match of the
analyzer pattern, kept only when hash and message are non-empty, with the
message trimmed. -/
def commitOfText (timestamp : String) (s : String) : Option CommitRecord :=
  match analyzerCommitScan s.toList with
  | some m =>
    if m.hash ≠ "" ∧ m.message ≠ "" then
      some ⟨m.hash, jsTrim m.message, timestamp⟩
    else none
  | none => none

def blockCommits (timestamp : String) : ContentBlock → List CommitRecord
  | .tool_result _ rc _ => (commitOfText timestamp (toolResultContentStr rc)).toList
  | _ => []

def loglineCommits (l : Logline) : List CommitRecord :=
  match l.message with
  | none => []
  | some msg =>
    match msg.content with
    | .str _ => []
    | .blocks bs => bs.flatMap (blockCommits (l.timestamp.getD ""))

/-- The number of tool-result blocks the analyzer visits in an entry. -/
def loglineToolResultCount (l : Logline) : Nat :=
  match l.message with
  | none => 0
  | some msg =>
    match msg.content with
    | .str _ => 0
    | .blocks bs =>
      (bs.filter fun b => match b with
        | .tool_result _ _ _ => true
        | _ => false).length

theorem analyzeBlock_commits (ts : String) (a : ConversationAnalysis)
    (b : ContentBlock) :
    (analyzeBlock ts a b).commits = a.commits ++ blockCommits ts b := by
  cases b with
  | text t => simp [analyzeBlock, blockCommits]
  | thinking t =>
    simp only [analyzeBlock, blockCommits]
    split <;> simp
  | image src => simp [analyzeBlock, blockCommits]
  | tool_use id name input =>
    simp only [analyzeBlock, blockCommits]
    split <;> simp
  | tool_result tid rc isErr =>
    simp only [analyzeBlock, blockCommits, commitOfText]
    cases analyzerCommitScan (toolResultContentStr rc).toList with
    | none => simp
    | some m =>
      by_cases h : m.hash ≠ "" ∧ m.message ≠ "" <;> simp [h]

theorem analyzeBlocks_commits (ts : String) (bs : List ContentBlock) :
    ∀ a, (bs.foldl (analyzeBlock ts) a).commits =
      a.commits ++ bs.flatMap (blockCommits ts) := by
  induction bs with
  | nil => simp
  | cons b rest ih =>
    intro a
    rw [List.foldl_cons, ih, analyzeBlock_commits]
    simp

theorem analyzeLogline_commits (a : ConversationAnalysis) (l : Logline) :
    (analyzeLogline a l).commits = a.commits ++ loglineCommits l := by
  simp only [analyzeLogline, loglineCommits]
  cases hm : l.message with
  | none => simp
  | some msg =>
    cases hcon : msg.content with
    | str s =>
      simp only [hcon]
      by_cases hs : s = ""
      · simp [hs]
      · rw [if_neg (by simp [hs])]
        rw [analyzeBlocks_commits]
        simp [blockCommits]
    | blocks bs =>
      simp only [hcon]
      rw [if_neg (by simp)]
      rw [analyzeBlocks_commits]

theorem analyzeConversation_commits (loglines : List Logline) :
    (analyzeConversation loglines).commits = loglines.flatMap loglineCommits := by
  suffices h : ∀ a, ((loglines.foldl analyzeLogline a).commits =
      a.commits ++ loglines.flatMap loglineCommits) by
    simpa [analyzeConversation] using h ⟨[], [], []⟩
  induction loglines with
  | nil => simp
  | cons l rest ih =>
    intro a
    rw [List.foldl_cons, ih, analyzeLogline_commits]
    simp

/-- C4 (amended): the analyzer's commit detection captures, per tool-result
text (array contents flattened to a JSON string first), only the FIRST
occurrence of the commit pattern — the captured message is the remainder of
that occurrence's line, trimmed — so every tool-result block contributes at
most one commit and later occurrences in the same text are ignored. -/
theorem analyzer_commits_are_first_match_per_tool_result (loglines : List Logline) :
    (analyzeConversation loglines).commits = loglines.flatMap loglineCommits ∧
    (∀ ts b, (blockCommits ts b).length ≤ 1) ∧
    (analyzeConversation loglines).commits.length ≤
      (loglines.map loglineToolResultCount).sum := by
  refine ⟨analyzeConversation_commits loglines, ?_, ?_⟩
  · intro ts b
    cases b <;> simp [blockCommits]
    cases commitOfText ts _ <;> simp
  · rw [analyzeConversation_commits]
    have hblocks : ∀ (ts : String) (bs : List ContentBlock),
        (bs.flatMap (blockCommits ts)).length ≤
          (bs.filter fun b => match b with
            | ContentBlock.tool_result _ _ _ => true
            | _ => false).length := by
      intro ts bs
      induction bs with
      | nil => simp
      | cons b rest ih =>
        rw [List.flatMap_cons, List.length_append]
        cases b with
        | tool_result tid rc isErr =>
          have h1 : (blockCommits ts (.tool_result tid rc isErr)).length ≤ 1 := by
            simp only [blockCommits]
            cases commitOfText ts (toolResultContentStr rc) <;> simp
          rw [List.filter_cons_of_pos (by rfl), List.length_cons]
          omega
        | text t => simpa [blockCommits] using ih
        | thinking t => simpa [blockCommits] using ih
        | image src => simpa [blockCommits] using ih
        | tool_use id name input => simpa [blockCommits] using ih
    have hper : ∀ l2 : Logline,
        (loglineCommits l2).length ≤ loglineToolResultCount l2 := by
      intro l2
      simp only [loglineCommits, loglineToolResultCount]
      cases hm2 : l2.message with
      | none => simp
      | some msg =>
        cases hcon2 : msg.content with
        | str s => simp [hcon2]
        | blocks bs =>
          simp only [hcon2]
          exact hblocks _ bs
    induction loglines with
    | nil => simp
    | cons l rest ih =>
      rw [List.flatMap_cons, List.length_append, List.map_cons, List.sum_cons]
      have := hper l
      omega

/-- An entry whose single tool-result text contains two occurrences of the
commit pattern. -/
def sampleTwoCommitLogline : Logline :=
  { type := .user
    timestamp := some "ts"
    message := some
      { role := none
        content := .blocks
          [.tool_result none
            (.str "[main 1234567] first\n[dev 89abcde] second") none] } }

/-- C4 counterexample: a tool-result text with two occurrences of the commit
pattern yields only one commit (the first); the second line is itself an
occurrence of the pattern, witnessed by running the matcher on it, yet it is
absent from the commit list. -/
theorem analyzer_drops_second_commit_occurrence :
    (analyzeConversation [sampleTwoCommitLogline]).commits =
      [⟨"1234567", "first", "ts"⟩] ∧
    analyzerCommitScan "[dev 89abcde] second".toList =
      some ⟨"dev", "89abcde", "second"⟩ :=
  ⟨by decide, by decide⟩

/-! ### Verification: tool counting (C6) -/

def blockToolNames : ContentBlock → List String
  | .tool_use _ name _ => [name]
  | _ => []

/-- The tool-use names, in order, that the whole-session analyzer visits in
one entry. -/
def loglineToolNames (l : Logline) : List String :=
  match l.message with
  | none => []
  | some msg =>
    match msg.content with
    | .str _ => []
    | .blocks bs => bs.flatMap blockToolNames

/-- The tool-use names, in order, with a non-empty name, of an assistant
message of a conversation. -/
def convMessageToolNames (msg : ConversationMessage) : List String :=
  if msg.type = .assistant then
    match msg.messageJson.content with
    | .str _ => []
    | .blocks bs => bs.flatMap fun b =>
        match b with
        | .tool_use _ name _ => if name ≠ "" then [name] else []
        | _ => []
  else []

theorem analyzeBlock_toolCounts (ts : String) (a : ConversationAnalysis)
    (b : ContentBlock) :
    (analyzeBlock ts a b).toolCounts =
      (blockToolNames b).foldl mapIncr a.toolCounts := by
  cases b with
  | text t => simp [analyzeBlock, blockToolNames]
  | thinking t =>
    simp only [analyzeBlock, blockToolNames]
    split <;> simp
  | image src => simp [analyzeBlock, blockToolNames]
  | tool_use id name input =>
    simp only [analyzeBlock, blockToolNames]
    split <;> simp
  | tool_result tid rc isErr =>
    simp only [analyzeBlock, blockToolNames]
    cases analyzerCommitScan (toolResultContentStr rc).toList with
    | none => simp
    | some m =>
      by_cases h : m.hash ≠ "" ∧ m.message ≠ "" <;> simp [h]

theorem analyzeBlocks_toolCounts (ts : String) (bs : List ContentBlock) :
    ∀ a, (bs.foldl (analyzeBlock ts) a).toolCounts =
      (bs.flatMap blockToolNames).foldl mapIncr a.toolCounts := by
  induction bs with
  | nil => simp
  | cons b rest ih =>
    intro a
    rw [List.foldl_cons, ih, List.flatMap_cons, List.foldl_append,
      analyzeBlock_toolCounts]

theorem analyzeLogline_toolCounts (a : ConversationAnalysis) (l : Logline) :
    (analyzeLogline a l).toolCounts =
      (loglineToolNames l).foldl mapIncr a.toolCounts := by
  simp only [analyzeLogline, loglineToolNames]
  cases hm : l.message with
  | none => simp
  | some msg =>
    cases hcon : msg.content with
    | str s =>
      simp only [hcon]
      by_cases hs : s = ""
      · simp [hs]
      · rw [if_neg (by simp [hs])]
        rw [analyzeBlocks_toolCounts]
        simp [blockToolNames]
    | blocks bs =>
      simp only [hcon]
      rw [if_neg (by simp)]
      rw [analyzeBlocks_toolCounts]

theorem analyzeConversation_toolCounts (loglines : List Logline) :
    (analyzeConversation loglines).toolCounts =
      (loglines.flatMap loglineToolNames).foldl mapIncr [] := by
  suffices h : ∀ a, ((loglines.foldl analyzeLogline a).toolCounts =
      (loglines.flatMap loglineToolNames).foldl mapIncr a.toolCounts) by
    simpa [analyzeConversation] using h ⟨[], [], []⟩
  induction loglines with
  | nil => simp
  | cons l rest ih =>
    intro a
    rw [List.foldl_cons, ih, List.flatMap_cons, List.foldl_append,
      analyzeLogline_toolCounts]

theorem convBlocks_toolCounts (bs : List ContentBlock) :
    ∀ m0 : List (String × Nat),
      bs.foldl
        (fun m block =>
          match block with
          | ContentBlock.tool_use _ name _ =>
            if name ≠ "" then mapIncr m (normalizeToolName name) else m
          | _ => m) m0 =
      (bs.flatMap fun b =>
        match b with
        | ContentBlock.tool_use _ name _ => if name ≠ "" then [name] else []
        | _ => []).foldl (fun m n => mapIncr m (normalizeToolName n)) m0 := by
  induction bs with
  | nil => simp
  | cons b brest bih =>
    intro m0
    rw [List.foldl_cons, List.flatMap_cons, List.foldl_append]
    cases b with
    | tool_use id name input =>
      simp only []
      by_cases hn : name = ""
      · rw [if_neg (not_not_intro hn), if_neg (not_not_intro hn)]
        simpa using bih m0
      · rw [if_pos hn, if_pos hn]
        simpa using bih (mapIncr m0 (normalizeToolName name))
    | text t => simpa using bih m0
    | thinking t => simpa using bih m0
    | image src => simpa using bih m0
    | tool_result tid rc isErr => simpa using bih m0

theorem conversationToolCounts_spec (messages : List ConversationMessage) :
    conversationToolCounts messages =
      (messages.flatMap convMessageToolNames).foldl
        (fun m n => mapIncr m (normalizeToolName n)) [] := by
  suffices h : ∀ m0, (messages.foldl
      (fun m msg =>
        if msg.type ≠ .assistant then m
        else
          match msg.messageJson.content with
          | .str _ => m
          | .blocks content =>
            content.foldl
              (fun m block =>
                match block with
                | .tool_use _ name _ =>
                  if name ≠ "" then mapIncr m (normalizeToolName name) else m
                | _ => m)
              m)
      m0) =
      (messages.flatMap convMessageToolNames).foldl
        (fun m n => mapIncr m (normalizeToolName n)) m0 by
    exact h []
  induction messages with
  | nil => simp
  | cons msg rest ih =>
    intro m0
    rw [List.foldl_cons, List.flatMap_cons, List.foldl_append, ← ih]
    congr 1
    by_cases ht : msg.type = .assistant
    · simp only [convMessageToolNames, ht, if_pos, ne_eq, not_true_eq_false,
        if_false, reduceIte]
      cases hcon : msg.messageJson.content with
      | str s => simp
      | blocks bs =>
        simpa using convBlocks_toolCounts bs m0
    · simp [convMessageToolNames, ht]

/-- C6 (amended): the per-conversation tool statistics key their counters by
the normalized tool name — lower-cased, a leading `mcp_` stripped, the alias
table collapsing TodoWrite/TodoRead to "todo" and passing
bash/write/edit/read/glob/grep through unchanged — but the whole-session
analyzer keys its counters by the raw tool name, with no normalization. -/
theorem tool_counter_keys_per_site (loglines : List Logline)
    (messages : List ConversationMessage) :
    (analyzeConversation loglines).toolCounts =
      (loglines.flatMap loglineToolNames).foldl mapIncr [] ∧
    conversationToolCounts messages =
      (messages.flatMap convMessageToolNames).foldl
        (fun m n => mapIncr m (normalizeToolName n)) [] ∧
    normalizeToolName "TodoWrite" = "todo" ∧
    normalizeToolName "TodoRead" = "todo" ∧
    normalizeToolName "mcp_TodoWrite" = "todo" ∧
    (∀ s ∈ ["bash", "write", "edit", "read", "glob", "grep"],
      normalizeToolName s = s) :=
  ⟨analyzeConversation_toolCounts loglines, conversationToolCounts_spec messages,
   by decide, by decide, by decide, by decide⟩

/-- An assistant entry invoking the TodoWrite tool once, in both the logline
shape seen by the session analyzer and the conversation-message shape seen
by the per-conversation statistics. -/
def sampleTodoWriteMessage : Message :=
  { role := none, content := .blocks [.tool_use "toolu_1" "TodoWrite" []] }

def sampleTodoWriteLogline : Logline :=
  { type := .assistant, message := some sampleTodoWriteMessage }

def sampleTodoWriteConvMessage : ConversationMessage :=
  { type := .assistant, messageJson := sampleTodoWriteMessage, timestamp := "" }

/-- C6 counterexample: for a TodoWrite invocation the whole-session analyzer
counts under the raw key "TodoWrite", not under the normalized key "todo"
the claim requires, while the per-conversation statistics do normalize. -/
theorem session_analyzer_counts_raw_tool_names :
    (analyzeConversation [sampleTodoWriteLogline]).toolCounts =
      [("TodoWrite", 1)] ∧
    normalizeToolName "TodoWrite" = "todo" ∧
    ("todo", 1) ∉ (analyzeConversation [sampleTodoWriteLogline]).toolCounts ∧
    conversationToolCounts [sampleTodoWriteConvMessage] = [("todo", 1)] :=
  ⟨by decide, by decide, by decide, by decide⟩

/-! ### Verification: flat-content entries and the analyzer (C10) -/

/-- C10: an entry whose payload is supplied only via the flat `content`
field (no nested `message`) contributes nothing to the session-wide
analyzer — removing it changes no tool counts, long-text flags or commits —
even though the grouper resolves exactly such entries through the
flat-field fallback; consequently the index summary's tool-call and commit
totals ignore it. -/
theorem flat_content_entries_invisible_to_analyzer
    (pre post : List Logline) (l : Logline) (c : MessageContent)
    (hm : l.message = none) (hc : l.content = some c) :
    analyzeConversation (pre ++ l :: post) = analyzeConversation (pre ++ post) ∧
    getMessageFromLogline l = some { role := none, content := c } ∧
    ∀ (convs : List Conversation) (tp : Nat),
      (indexSummaryData convs (pre ++ l :: post) tp).toolCallCount =
        (indexSummaryData convs (pre ++ post) tp).toolCallCount ∧
      (indexSummaryData convs (pre ++ l :: post) tp).commitCount =
        (indexSummaryData convs (pre ++ post) tp).commitCount := by
  have hskip : ∀ a, analyzeLogline a l = a := by
    intro a
    simp [analyzeLogline, hm]
  have hana : analyzeConversation (pre ++ l :: post) =
      analyzeConversation (pre ++ post) := by
    simp only [analyzeConversation, List.foldl_append, List.foldl_cons, hskip]
  refine ⟨hana, ?_, ?_⟩
  · simp [getMessageFromLogline, hm, hc]
  · intro convs tp
    constructor <;> simp [indexSummaryData, hana]

/-- A current-shape entry: flat content, no nested message. -/
def sampleFlatLogline : Logline :=
  { type := .assistant, timestamp := some "t9"
    content := some (.blocks [.tool_use "toolu_9" "Bash" []]) }

theorem flat_content_entries_invisible_to_analyzer_witness :
    analyzeConversation ([] ++ sampleFlatLogline :: []) =
      analyzeConversation ([] ++ []) ∧
    getMessageFromLogline sampleFlatLogline =
      some { role := none,
             content := .blocks [.tool_use "toolu_9" "Bash" []] } ∧
    ∀ (convs : List Conversation) (tp : Nat),
      (indexSummaryData convs ([] ++ sampleFlatLogline :: []) tp).toolCallCount =
        (indexSummaryData convs ([] ++ []) tp).toolCallCount ∧
      (indexSummaryData convs ([] ++ sampleFlatLogline :: []) tp).commitCount =
        (indexSummaryData convs ([] ++ []) tp).commitCount :=
  flat_content_entries_invisible_to_analyzer [] [] sampleFlatLogline
    (.blocks [.tool_use "toolu_9" "Bash" []]) rfl rfl

/-! ### Verification: renderer totality (C8) -/

/-- C8: a block with an unknown type tag does reach the non-throwing
raw-JSON fallback, but a schema-valid tool-result block whose content array
contains a null item makes the renderer throw — the `hasImages` probe reads
`item.type` on null — contradicting the contract that rendering never
raises for a structurally valid block. -/
theorem renderer_throws_on_null_tool_result_item :
    renderContentBlock
      (ContentBlock.toJson (.tool_result none (.items [.null]) none)) none =
      none ∧
    renderContentBlock
      (ContentBlock.toJson
        (.tool_result none (.items [.obj [("type", .str "image")]]) none)) none =
      none ∧
    renderContentBlock (Json.obj [("type", Json.str "banana")]) none =
      some
        "<div class=\"unknown-block\"><pre>\x7b\n  \"type\": \"banana\"\n\x7d</pre></div>" :=
  ⟨by decide, by decide, by decide⟩

/-! ### Verification: index links and message anchors (C9) -/

theorem dropWhile_append_singleton_ne_nil (p : Char → Bool) (c : Char)
    (hc : p c = false) :
    ∀ xs : List Char, (xs ++ [c]).dropWhile p ≠ [] := by
  intro xs
  induction xs with
  | nil => simp [List.dropWhile_cons, hc]
  | cons x rest ih =>
    rw [List.cons_append, List.dropWhile_cons]
    by_cases hx : p x = true
    · simpa [hx] using ih
    · simp [hx]

theorem jsTrimList_cons_ne_nil (c : Char) (l : List Char)
    (hc : isJsWs c = false) : jsTrimList (c :: l) ≠ [] := by
  simp only [jsTrimList]
  rw [List.dropWhile_cons]
  simp only [hc, Bool.false_eq_true, if_false]
  intro h
  have h2 : ((c :: l).reverse.dropWhile isJsWs) = [] := by
    have := congrArg List.reverse h
    simpa using this
  rw [List.reverse_cons] at h2
  exact dropWhile_append_singleton_ne_nil isJsWs c hc l.reverse h2

/-- The user-content wrapper opens with a non-whitespace character, so the
rendered markup never trims to the empty string. -/
theorem jsTrim_userContent_ne_empty (t : String) :
    jsTrim ("<div class=\"user-content\">" ++ t) ≠ "" := by
  intro h
  have hlist : jsTrimList (("<div class=\"user-content\">" ++ t).toList) = [] := by
    have := congrArg String.toList h
    simpa [jsTrim] using this
  have hdecomp : ("<div class=\"user-content\">" ++ t).toList =
      '<' :: ("div class=\"user-content\">".toList ++ t.toList) := by
    have : ("<div class=\"user-content\">" ++ t).toList =
        "<div class=\"user-content\">".toList ++ t.toList :=
      String.data_append _ _
    rw [this]
    rfl
  rw [hdecomp] at hlist
  exact jsTrimList_cons_ne_nil '<' _ (by decide) hlist

/-- Whatever branch UserContent takes, its output is the wrapper div around
some inner markup. -/
theorem renderUserContent_shape (message : Message) (s : String)
    (h : renderUserContent message = some s) :
    ∃ t, s = "<div class=\"user-content\">" ++ t := by
  cases hcon : message.content with
  | blocks content =>
    simp only [renderUserContent, hcon] at h
    cases hparts : content.mapM
        (fun b => renderContentBlock (ContentBlock.toJson b) none) with
    | none => rw [hparts] at h; simp at h
    | some parts =>
      rw [hparts] at h
      simp only [Option.bind_eq_bind, Option.some_bind, Option.pure_def,
        Option.some.injEq] at h
      exact ⟨String.join parts ++ "</div>", by
        rw [← h, String.append_assoc]⟩
  | str content =>
    simp only [renderUserContent, hcon] at h
    by_cases hj : isJsonLike content = true
    · rw [if_pos hj] at h
      simp only [Option.some.injEq] at h
      exact ⟨formatJson content ++ "</div>", by rw [← h, String.append_assoc]⟩
    · rw [if_neg hj] at h
      simp only [Option.some.injEq] at h
      exact ⟨renderMarkdown content ++ "</div>", by rw [← h, String.append_assoc]⟩

/-- The single-pass `[:.]` replacement of IndexItem equals the two sequential
replacements of makeMsgId. -/
theorem indexItem_anchor_eq_makeMsgId (timestamp : String) :
    "msg-" ++ String.mk
        (timestamp.toList.map fun c => if c = ':' ∨ c = '.' then '-' else c) =
      makeMsgId timestamp := by
  simp only [makeMsgId, List.map_map]
  have hfun : (fun c : Char => if c = ':' ∨ c = '.' then '-' else c) =
      ((fun c => if c = '.' then '-' else c) ∘ fun c => if c = ':' then '-' else c) := by
    funext c
    by_cases h1 : c = ':'
    · simp [h1, Function.comp]
    · by_cases h2 : c = '.' <;> simp [h1, h2, Function.comp]
  rw [hfun]

/-- renderMessage on a genuine user prompt whose content renders without
throwing: the message is kept and wrapped with the anchor id made from its
timestamp. -/
theorem renderMessage_user_shape (message : Message) (timestamp : String)
    (githubRepo : Option String) (s : String)
    (hrc : renderUserContent message = some s)
    (htr : isToolResultMessage message = false) :
    renderMessage .user message timestamp githubRepo =
      some (messageComponentHtml "user" "User" (makeMsgId timestamp)
        timestamp s) := by
  obtain ⟨t, ht⟩ := renderUserContent_shape message s hrc
  have hne : ¬ jsTrim s = "" := by
    rw [ht]
    exact jsTrim_userContent_ne_empty t
  simp only [renderMessage, hrc, htr, Option.bind_eq_bind, Option.some_bind,
    Bool.false_eq_true, if_false, if_neg hne]
  rfl

/-- C9: for the conversation at zero-based position i, the index entry links
to `page-(floor(i/5)+1)` — exactly the chunk where the paginator places that
conversation — with the anchor `msg-` + timestamp sanitized, which equals
makeMsgId of the conversation's timestamp; the conversation's first message
is a genuine user prompt carrying that same timestamp, and (when its content
renders without throwing) the page assembler keeps it and assigns it exactly
that anchor id, so the deep link resolves. -/
theorem index_entry_links_resolve (loglines : List Logline) (i : Nat)
    (githubRepo : Option String)
    (hi : i < (groupLoglinesToConversations loglines).length)
    (hrender : renderUserContent
        (((groupLoglinesToConversations loglines).getD i default).messages.headD
          default).messageJson ≠ none) :
    let convs := groupLoglinesToConversations loglines
    let c := convs.getD i default
    indexEntryHref i c.timestamp =
      getPageFilename (i / PROMPTS_PER_PAGE + 1) ++ "#" ++ makeMsgId c.timestamp ∧
    i / PROMPTS_PER_PAGE < (paginateConversations convs).length ∧
    ((paginateConversations convs).getD (i / PROMPTS_PER_PAGE) []).getD
      (i % PROMPTS_PER_PAGE) default = c ∧
    (c.messages.headD default).timestamp = c.timestamp ∧
    (c.messages.headD default).type = .user ∧
    isToolResultMessage (c.messages.headD default).messageJson = false ∧
    ∃ contentHtml,
      renderUserContent (c.messages.headD default).messageJson =
        some contentHtml ∧
      renderMessage .user (c.messages.headD default).messageJson
          (c.messages.headD default).timestamp githubRepo =
        some (messageComponentHtml "user" "User" (makeMsgId c.timestamp)
          c.timestamp contentHtml) := by
  intro convs c
  have hc_mem : c ∈ convs := by
    have hgd : convs.getD i default = convs[i] := by
      rw [List.getD_eq_getElem?_getD, List.getElem?_eq_getElem hi]
      rfl
    rw [show c = convs[i] from hgd]
    exact List.getElem_mem hi
  obtain ⟨m0, rest, hmsgs, hty, htr, hts, _⟩ :=
    grouper_mem_convInvariant loglines c hc_mem
  have hhead : c.messages.headD default = m0 := by rw [hmsgs]; rfl
  have hp := chunked5_getD convs i hi
  refine ⟨?_, ?_, ?_, ?_, ?_, ?_, ?_⟩
  · simp only [indexEntryHref, getPageFilename, formatPageNum]
    rw [← indexItem_anchor_eq_makeMsgId]
  · rw [paginateConversations_eq_chunked5]
    simpa [PROMPTS_PER_PAGE] using hp.1
  · rw [paginateConversations_eq_chunked5]
    show ((chunked5 convs).getD (i / PROMPTS_PER_PAGE) []).getD
      (i % PROMPTS_PER_PAGE) default = convs.getD i default
    simpa [PROMPTS_PER_PAGE] using hp.2
  · rw [hhead, hts]
  · rw [hhead, hty]
  · rw [hhead, htr]
  · cases hroc : renderUserContent
        ((c.messages.headD default).messageJson) with
    | none => exact absurd hroc hrender
    | some s =>
      refine ⟨s, rfl, ?_⟩
      have := renderMessage_user_shape (c.messages.headD default).messageJson
        (c.messages.headD default).timestamp githubRepo s hroc
        (by rw [hhead]; exact htr)
      rw [this]
      rw [hhead, hts]

/-- A genuine user prompt with plain-text content, used as concrete input
below. -/
def sampleGenuineLogline : Logline :=
  { type := .user
    timestamp := some "2025-01-01T00:00:00.000Z"
    message := some { role := none, content := .str "hello" } }

theorem index_entry_links_resolve_witness :
    (let convs := groupLoglinesToConversations [sampleGenuineLogline]
     let c := convs.getD 0 default
     indexEntryHref 0 c.timestamp =
       getPageFilename (0 / PROMPTS_PER_PAGE + 1) ++ "#" ++
         makeMsgId c.timestamp ∧
     0 / PROMPTS_PER_PAGE < (paginateConversations convs).length ∧
     ((paginateConversations convs).getD (0 / PROMPTS_PER_PAGE) []).getD
       (0 % PROMPTS_PER_PAGE) default = c ∧
     (c.messages.headD default).timestamp = c.timestamp ∧
     (c.messages.headD default).type = .user ∧
     isToolResultMessage (c.messages.headD default).messageJson = false ∧
     ∃ contentHtml,
       renderUserContent (c.messages.headD default).messageJson =
         some contentHtml ∧
       renderMessage .user (c.messages.headD default).messageJson
           (c.messages.headD default).timestamp none =
         some (messageComponentHtml "user" "User" (makeMsgId c.timestamp)
           c.timestamp contentHtml)) :=
  index_entry_links_resolve [sampleGenuineLogline] 0 none (by decide) (by decide)

end CCTranscript
